import Mathlib

/-!
A verification development for the LyreCloud-Teams server storage layer.

The definitions below are a shallow embedding of the TypeScript storage code:

* the user and file records of shared/schema.ts;
* the in-memory JavaScript Map discipline (insertion-ordered association
  lists whose set operation overwrites in place);
* the WebDAV client, modelled as a structure of pure oracles: each remote
  call either returns a value or fails (an exception in the source);
* the storage operations of server/nextcloud-storage.ts
  (loadUsersFromNextCloud, verifyStorageConsistency, saveUsersToNextCloud,
  scanFilesFromNextCloud, getMimeTypeFromFilename, updateFile, deleteFile),
  of the enhanced-storage NextCloudStorage variant (getFiles, deleteUser,
  updateUser), and of the admin routes in server/auth.ts
  (remove-admin and delete-user).

Dates are modelled as natural numbers; a current-time value is passed as a
parameter where the source calls the Date constructor.  Console logging has
no observable effect and is dropped.  Fields that JavaScript treats as
falsy when absent are modelled by the empty string (for strings) and by
zero (for numbers), matching the short-circuit defaulting in the source.
-/

/-! ## Records (shared/schema.ts) -/

/-- A user record: id, username, password, role, status, isApproved.
The source stores the password hash here; its contents are opaque. -/
structure User where
  id : Nat
  username : String
  password : String
  role : String
  status : String
  isApproved : Bool
  deriving Repr, DecidableEq

/-- A user record as parsed from the users.json document, before the load
pass normalizes it.  Absent string fields parse to the empty string and an
absent id to zero, which is exactly what the falsy checks in the source
test for. -/
structure RawUser where
  id : Nat
  username : String
  password : String
  role : String
  status : String
  isApproved : Bool
  deriving Repr, DecidableEq

/-- A file record.  The uploadedBy field is written by
server/nextcloud-storage.ts; the enhanced-storage variant never sets it,
which we model by the empty string (an absent property). -/
structure File where
  id : Nat
  filename : String
  originalFilename : String
  path : String
  size : Nat
  mimeType : String
  uploadedAt : Nat
  isDeleted : Bool
  uploadedBy : String
  deriving Repr, DecidableEq

/-- One entry of a WebDAV directory listing, as returned by
getDirectoryContents: basename, full path (the filename property), item
type (file or directory), size, optional mime, optional modification
time.  An absent mime is the empty string and an absent lastmod is zero,
matching the falsy checks in the source. -/
structure RemoteItem where
  basename : String
  filename : String
  type : String
  size : Nat
  mime : String
  lastmod : Nat
  deriving Repr, DecidableEq

/-- One value of the cached bulk-metadata document (files.json), a
Partial File record: uploadedBy, uploadedAt and originalFilename, each
possibly absent. -/
structure FileMeta where
  uploadedBy : String := ""
  uploadedAt : Option Nat := none
  originalFilename : String := ""
  deriving Repr, DecidableEq

/-! ## JavaScript Map model

JavaScript Map objects preserve insertion order; set overwrites an
existing key in place and otherwise appends; delete removes the entry.
We model them as association lists. -/

/-- An insertion-ordered map from numeric ids to values. -/
abbrev JsMap (α : Type) := List (Nat × α)

/-- Map.set: overwrite the entry holding the key in place, append
otherwise.  A Map holds each key at most once, so replacing the first
occurrence is exact. -/
def jsSet {α : Type} : JsMap α → Nat → α → JsMap α
  | [], k, v => [(k, v)]
  | (k0, v0) :: rest, k, v =>
    if k0 == k then (k, v) :: rest else (k0, v0) :: jsSet rest k v

/-- Map.get: the value stored at the key. -/
def jsGet {α : Type} : JsMap α → Nat → Option α
  | [], _ => none
  | (k0, v0) :: rest, k => if k0 == k then some v0 else jsGet rest k

/-- Map.delete (the membership result is recovered separately). -/
def jsDelete {α : Type} : JsMap α → Nat → JsMap α
  | [], _ => []
  | (k0, v0) :: rest, k =>
    if k0 == k then jsDelete rest k else (k0, v0) :: jsDelete rest k

/-- Array.from(map.values()), in insertion order. -/
def jsValues {α : Type} (m : JsMap α) : List α :=
  m.map Prod.snd

/-! ## String helpers mirroring node path and JavaScript string methods -/

/-- path.basename: the last slash-separated component (trailing slashes,
which never occur in the listed basenames, are not stripped). -/
def strBasename (p : String) : String :=
  String.mk ((p.toList.reverse.takeWhile (fun c => !(c == '/'))).reverse)

/-- Lower-casing of an ASCII character (the names involved are ASCII). -/
def lowerChar (c : Char) : Char :=
  if 'A' ≤ c ∧ c ≤ 'Z' then Char.ofNat (c.toNat + 32) else c

/-- JavaScript toLowerCase over ASCII names. -/
def strToLower (s : String) : String :=
  String.mk (s.toList.map lowerChar)

/-- The characters after the last dot of the list, if any dot occurs. -/
def afterLastDot : List Char → Option (List Char)
  | [] => none
  | '.' :: rest =>
    match afterLastDot rest with
    | some r => some r
    | none => some rest
  | _ :: rest => afterLastDot rest

/-- path.extname: the final dot of the basename together with what follows
it; empty when the basename has no dot or only a leading dot. -/
def extname (p : String) : String :=
  match (strBasename p).toList with
  | [] => ""
  | _ :: rest =>
    match afterLastDot rest with
    | some r => "." ++ String.mk r
    | none => ""

/-- Dropping a trailing dot-extension, as the regex replace of a final dot
followed by characters other than slash and dot (used by the rename path
to strip an extension from the requested new name). -/
def stripExtSuffix (s : String) : String :=
  let r := s.toList.reverse
  let seg := r.takeWhile (fun c => !(c == '.') && !(c == '/'))
  match r.drop seg.length with
  | '.' :: rest2 => if seg.isEmpty then s else String.mk rest2.reverse
  | _ => s

/-- path.dirname: everything before the last slash; a dot when there is no
slash; a single slash when the only slash is leading. -/
def dirname (p : String) : String :=
  match (p.toList.reverse).dropWhile (fun c => !(c == '/')) with
  | [] => "."
  | _ :: [] => "/"
  | _ :: rest => String.mk rest.reverse

/-- The hexadecimal value of a character, if any. -/
def hexVal (c : Char) : Option Nat :=
  if '0' ≤ c ∧ c ≤ '9' then some (c.toNat - '0'.toNat)
  else if 'a' ≤ c ∧ c ≤ 'f' then some (c.toNat - 'a'.toNat + 10)
  else if 'A' ≤ c ∧ c ≤ 'F' then some (c.toNat - 'A'.toNat + 10)
  else none

/-- Percent-decoding of single-byte escapes, a model of the JavaScript
decodeURIComponent call on discovered basenames (multi-byte UTF-8 escapes
and malformed-input exceptions are beyond what any claim exercises). -/
def percentDecodeChars : List Char → List Char
  | [] => []
  | '%' :: a :: b :: rest =>
    match hexVal a, hexVal b with
    | some x, some y => Char.ofNat (16 * x + y) :: percentDecodeChars rest
    | _, _ => '%' :: percentDecodeChars (a :: b :: rest)
  | c :: rest => c :: percentDecodeChars rest

/-- decodeURIComponent on a basename. -/
def decodeURIComponent (s : String) : String :=
  String.mk (percentDecodeChars s.toList)

/-- Whether the first character list is a prefix of the second. -/
def chPrefixOf : List Char → List Char → Bool
  | [], _ => true
  | _ :: _, [] => false
  | a :: as, b :: bs => a == b && chPrefixOf as bs

/-- Whether the first character list occurs inside the second. -/
def chInfixOf (pat : List Char) : List Char → Bool
  | [] => pat.isEmpty
  | c :: rest => chPrefixOf pat (c :: rest) || chInfixOf pat rest

/-- JavaScript String.includes, substring containment. -/
def strContains (s pat : String) : Bool :=
  chInfixOf pat.toList s.toList

/-- JavaScript String.endsWith. -/
def strEndsWith (s pat : String) : Bool :=
  chPrefixOf pat.toList.reverse s.toList.reverse

/-- name.split(dot).pop(): the part after the last dot, or the whole name
when it has no dot (used by the enhanced-storage mime inference). -/
def splitPop (s : String) : String :=
  let r := s.toList.reverse
  let seg := r.takeWhile (fun c => !(c == '.'))
  if seg.length = r.length then s else String.mk seg.reverse

/-! ## The remote gateway

Every WebDAV call of the source can either return a value or throw.  We
model the client as a structure of pure oracles; an error value stands for
a thrown exception.  A fixed gateway models a remote store that does not
change between the calls of one scenario. -/

/-- The opaque WebDAV client: existence check, read, write, copy, delete,
directory listing, directory creation.  Write contents are not modelled;
whether the remote accepts a write does not depend on the payload here. -/
structure Gateway where
  existsFile : String → Except Unit Bool
  readFile : String → Except Unit String
  putFile : String → Except Unit Unit
  copyFile : String → String → Except Unit Unit
  deleteRemote : String → Except Unit Unit
  listDir : String → Except Unit (List RemoteItem)
  mkdir : String → Except Unit Unit

/-! ## Mime inference -/

/-- getMimeTypeFromFilename of server/nextcloud-storage.ts: a static
extension table over the lower-cased path.extname result, with a generic
fallback. -/
def getMimeTypeFromFilename (filename : String) : String :=
  let ext := strToLower (extname filename)
  if ext = ".jpg" ∨ ext = ".jpeg" then "image/jpeg"
  else if ext = ".png" then "image/png"
  else if ext = ".gif" then "image/gif"
  else if ext = ".webp" then "image/webp"
  else if ext = ".bmp" then "image/bmp"
  else if ext = ".tiff" ∨ ext = ".tif" then "image/tiff"
  else if ext = ".heic" then "image/heic"
  else if ext = ".heif" then "image/heif"
  else if ext = ".svg" then "image/svg+xml"
  else if ext = ".pdf" then "application/pdf"
  else if ext = ".txt" then "text/plain"
  else if ext = ".doc" ∨ ext = ".docx" then "application/msword"
  else if ext = ".xls" ∨ ext = ".xlsx" then "application/vnd.ms-excel"
  else if ext = ".ppt" ∨ ext = ".pptx" then "application/vnd.ms-powerpoint"
  else if ext = ".mp3" then "audio/mpeg"
  else if ext = ".mp4" then "video/mp4"
  else "application/octet-stream"

/-- The extension-to-mime record literal of the enhanced-storage getFiles. -/
def enhMimeLookup (ext : String) : Option String :=
  if ext = "jpg" ∨ ext = "jpeg" then some "image/jpeg"
  else if ext = "png" then some "image/png"
  else if ext = "gif" then some "image/gif"
  else if ext = "webp" then some "image/webp"
  else if ext = "pdf" then some "application/pdf"
  else if ext = "mp4" then some "video/mp4"
  else if ext = "mov" then some "video/quicktime"
  else if ext = "mp3" then some "audio/mpeg"
  else if ext = "wav" then some "audio/wav"
  else if ext = "txt" then some "text/plain"
  else if ext = "doc" then some "application/msword"
  else if ext = "docx" then some "application/vnd.openxmlformats-officedocument.wordprocessingml.document"
  else if ext = "xls" then some "application/vnd.ms-excel"
  else if ext = "xlsx" then some "application/vnd.openxmlformats-officedocument.spreadsheetml.sheet"
  else if ext = "ppt" then some "application/vnd.ms-powerpoint"
  else if ext = "pptx" then some "application/vnd.openxmlformats-officedocument.presentationml.presentation"
  else if ext = "zip" then some "application/zip"
  else if ext = "rar" then some "application/x-rar-compressed"
  else none

/-- Mime inference of the enhanced-storage getFiles: the lower-cased part
after the last dot of the decoded name, looked up in the table, with the
generic fallback. -/
def enhMimeType (decodedName : String) : String :=
  match enhMimeLookup (strToLower (splitPop decodedName)) with
  | some m => m
  | none => "application/octet-stream"

/-! ## Users: load, consistency verification, persistence-time repairs

These model loadUsersFromNextCloud, verifyStorageConsistency, and the
in-memory mutations performed by saveUsersToNextCloud (which, besides
writing, also synthesizes a missing primordial administrator, coerces its
role, and fills defaults into records missing required fields). -/

/-- The reserved login-name of the primordial administrator. -/
def adminUsername : String := "rdxhere.exe"

/-- The default administrator record the source synthesizes (the password
is replaced by a hash at the auth layer). -/
def defaultAdmin (id : Nat) : User :=
  { id := id
    username := adminUsername
    password := "rdxpass"
    role := "admin"
    status := "approved"
    isApproved := true }

/-- The in-memory user store of a storage instance: the users map and the
next-id counter, together with the configured base folder. -/
structure UserState where
  users : JsMap User
  userCurrentId : Nat
  baseFolder : String
  deriving Repr, DecidableEq

/-- Update the first map value satisfying the predicate (the source finds
one object via Array.find and mutates it in place). -/
def updateFirst {α : Type} (m : JsMap α) (p : α → Bool) (f : α → α) : JsMap α :=
  match m with
  | [] => []
  | (k, v) :: rest =>
    if p v then (k, f v) :: rest else (k, v) :: updateFirst rest p f

/-- The per-user validation step of saveUsersToNextCloud: records missing
id, username or password get defaults (consuming the id counter when the
id is absent), then role and status defaults and the isApproved flag are
recomputed for every record. -/
def normalizeUserForSave (cid : Nat) (u : User) : User × Nat :=
  let (u, cid) :=
    if u.id = 0 ∨ u.username = "" ∨ u.password = "" then
      let (newId, cid) := if u.id = 0 then (cid, cid + 1) else (u.id, cid)
      let username := if u.username = "" then "user_" ++ toString newId else u.username
      let password := if u.password = "" then "default_password" else u.password
      ({ u with id := newId, username := username, password := password }, cid)
    else (u, cid)
  let role := if u.role = "" then "user" else u.role
  let status := if u.status = "" then "pending" else u.status
  ({ u with role := role
            status := status
            isApproved := decide (status = "approved") }, cid)

/-- The validation pass of saveUsersToNextCloud over all user records.
The source iterates a copy of the map values sorted by id and mutates the
shared objects; because the id counter is consulted only for records whose
id is absent - records that never occur in a map keyed by those very ids -
the iteration order is observationally irrelevant and we iterate in map
order. -/
def saveNormalizePass : JsMap User → Nat → JsMap User × Nat
  | [], cid => ([], cid)
  | (k, u) :: rest, cid =>
    let (u, cid) := normalizeUserForSave cid u
    let (rest, cid) := saveNormalizePass rest cid
    ((k, u) :: rest, cid)

/-- The in-memory effect of saveUsersToNextCloud: synthesize the
primordial administrator when absent, coerce its role to admin, then run
the validation pass.  (The remote write itself is modelled separately.) -/
def saveUsersLocalEffect (st : UserState) : UserState :=
  let st :=
    match (jsValues st.users).find? (fun u => u.username == adminUsername) with
    | some _ => st
    | none =>
      { st with users := jsSet st.users st.userCurrentId (defaultAdmin st.userCurrentId)
                userCurrentId := st.userCurrentId + 1 }
  let users := updateFirst st.users (fun u => u.username == adminUsername)
    (fun u => if u.role = "admin" then u else { u with role := "admin" })
  let (users, cid) := saveNormalizePass users st.userCurrentId
  { st with users := users, userCurrentId := cid }

/-- Normalization applied to each parsed record during
loadUsersFromNextCloud: role and status defaults, the isApproved flag
recomputed from status, and the role of the primordial administrator
coerced to admin. -/
def normalizeLoadedUser (u : RawUser) : User :=
  let role := if u.role = "" then "user" else u.role
  let status := if u.status = "" then "pending" else u.status
  let role := if u.username = adminUsername ∧ role ≠ "admin" then "admin" else role
  { id := u.id
    username := u.username
    password := u.password
    role := role
    status := status
    isApproved := decide (status = "approved") }

/-- The load loop of loadUsersFromNextCloud: skip records missing id,
username or password, normalize the rest, insert keyed by id, and track
the maximal id. -/
def loadUsersLoop : List RawUser → JsMap User → Nat → JsMap User × Nat
  | [], m, maxId => (m, maxId)
  | u :: rest, m, maxId =>
    if u.id = 0 ∨ u.username = "" ∨ u.password = "" then
      loadUsersLoop rest m maxId
    else
      loadUsersLoop rest (jsSet m u.id (normalizeLoadedUser u)) (max maxId u.id)

/-- loadUsersFromNextCloud on a users.json document that exists and
parses to the given record list: rebuild the map from scratch, set the id
counter past the maximal id, then restore a missing primordial
administrator (persisting immediately, hence the save-time repairs) or
coerce a wrong role on the found one.  The branch coercing the role after
the loop is unreachable because the loop already coerces it. -/
def loadUsersFromList (baseFolder : String) (input : List RawUser) : UserState :=
  let (m, maxId) := loadUsersLoop input [] 0
  let cid := maxId + 1
  match (jsValues m).find? (fun u => u.username == adminUsername) with
  | none =>
    saveUsersLocalEffect
      { users := jsSet m cid (defaultAdmin cid)
        userCurrentId := cid + 1
        baseFolder := baseFolder }
  | some adminUser =>
    if adminUser.role ≠ "admin" then
      let users := updateFirst m (fun u => u.username == adminUsername)
        (fun u => { u with role := "admin" })
      saveUsersLocalEffect
        { users := users
          userCurrentId := cid
          baseFolder := baseFolder }
    else
      { users := m, userCurrentId := cid, baseFolder := baseFolder }

/-- verifyStorageConsistency: when the primordial administrator is absent
the check throws, the exception is swallowed, and nothing changes; when it
is present a wrong role is coerced (and persisted); records missing any
required field are then removed (and the removal persisted). -/
def verifyStorageConsistency (st : UserState) : UserState :=
  match (jsValues st.users).find? (fun u => u.username == adminUsername) with
  | none => st
  | some adminUser =>
    let st :=
      if adminUser.role ≠ "admin" then
        let users := updateFirst st.users (fun u => u.username == adminUsername)
          (fun u => { u with role := "admin" })
        saveUsersLocalEffect { st with users := users }
      else st
    let invalid := (jsValues st.users).filter
      (fun u => u.id = 0 ∨ u.username = "" ∨ u.password = "" ∨ u.role = "" ∨ u.status = "")
    if invalid.isEmpty then st
    else
      saveUsersLocalEffect
        { st with users := invalid.foldl (fun m u => jsDelete m u.id) st.users }

/-! ## Admin routes (server/auth.ts)

The remove-admin and delete-user handlers run behind the isAdmin
middleware; the handler bodies below receive the target id (and, for
delete, the calling user id).  The backing store is the enhanced-storage
NextCloudStorage, whose updateUser merges the patch into the record and
whose deleteUser simply removes the map entry. -/

/-- The outcome of a route handler: a JSON user response, a JSON message
response, or an error status with message. -/
inductive RouteResult where
  | okUser (u : User)
  | okMsg (msg : String)
  | err (status : Nat) (msg : String)
  deriving Repr, DecidableEq

/-- The number of admin-role users, as computed by the handlers. -/
def adminCount (m : JsMap User) : Nat :=
  ((jsValues m).filter (fun u => u.role == "admin")).length

/-- POST /api/admin/remove-admin/:id -/
def removeAdminRoute (st : UserState) (targetId : Nat) : RouteResult × UserState :=
  match jsGet st.users targetId with
  | none => (.err 404 "User not found", st)
  | some user =>
    if adminCount st.users ≤ 1 ∧ user.role = "admin" then
      (.err 400 "Cannot remove the last admin user", st)
    else
      let updated := { user with role := "user" }
      (.okUser updated, { st with users := jsSet st.users targetId updated })

/-- DELETE /api/admin/delete-user/:id -/
def deleteUserRoute (st : UserState) (callerId targetId : Nat) : RouteResult × UserState :=
  match jsGet st.users targetId with
  | none => (.err 404 "User not found", st)
  | some user =>
    if adminCount st.users ≤ 1 ∧ user.role = "admin" then
      (.err 400 "Cannot delete the last admin user", st)
    else if callerId = targetId then
      (.err 400 "Cannot delete your own account", st)
    else
      (.okMsg "User deleted successfully", { st with users := jsDelete st.users targetId })

/-! ## Files: the NextCloudStorage of server/nextcloud-storage.ts -/

/-- The file side of a server/nextcloud-storage.ts instance: the files
map, the next-id counter, the cached bulk metadata (null until loaded,

keyed by storage filename), and the configured base folder. -/
structure NCState where
  files : JsMap File
  fileCurrentId : Nat
  fileMetadata : Option (List (String × FileMeta))
  baseFolder : String
  deriving Repr, DecidableEq

/-- Lookup in the cached bulk metadata record. -/
def metaLookup (meta : Option (List (String × FileMeta))) (name : String) : Option FileMeta :=
  match meta with
  | none => none
  | some m => (m.find? (fun p => p.1 == name)).map Prod.snd

/-- The metadata-file filter of the scan loop: json documents and the
reserved metadata names are not user files. -/
def scanSkip (filename : String) : Bool :=
  strEndsWith filename ".json" || filename == "files.json" ||
    filename == "users.json" || strContains filename "-users.json"

/-- Application of cached bulk metadata to a freshly scanned record:
uploadedBy, uploadedAt and originalFilename are overridden when present. -/
def applyCachedMeta (meta : Option (List (String × FileMeta))) (filename : String) (f : File) : File :=
  match metaLookup meta filename with
  | none => f
  | some m =>
    let f := if m.uploadedBy ≠ "" then { f with uploadedBy := m.uploadedBy } else f
    let f := match m.uploadedAt with
             | some t => { f with uploadedAt := t }
             | none => f
    if m.originalFilename ≠ "" then { f with originalFilename := m.originalFilename } else f

/-- The body of the scan loop of scanFilesFromNextCloud, over the listing
of the cdns folder, starting from the cleared map and counter one. -/
def scanLoop (cdnsFolder : String) (meta : Option (List (String × FileMeta))) (now : Nat) :
    List RemoteItem → JsMap File → Nat → JsMap File × Nat
  | [], files, fcid => (files, fcid)
  | item :: rest, files, fcid =>
    if item.type = "directory" then
      scanLoop cdnsFolder meta now rest files fcid
    else
      let filename := strBasename item.basename
      if scanSkip filename then
        scanLoop cdnsFolder meta now rest files fcid
      else
        let mimeType := if item.mime ≠ "" then item.mime else getMimeTypeFromFilename filename
        let newFile : File :=
          { id := fcid
            filename := filename
            originalFilename := filename
            path := cdnsFolder ++ "/" ++ filename
            size := item.size
            mimeType := mimeType
            uploadedAt := now
            isDeleted := false
            uploadedBy := "system" }
        let newFile := applyCachedMeta meta filename newFile
        scanLoop cdnsFolder meta now rest (jsSet files fcid newFile) (fcid + 1)

/-- scanFilesFromNextCloud: list the cdns folder; on failure the catch
leaves the in-memory state untouched; on success clear the map, reset the
id counter to one and rebuild every entry from the listing plus the cached
metadata. -/
def scanFilesFromNextCloud (gw : Gateway) (now : Nat) (st : NCState) : NCState :=
  match gw.listDir (st.baseFolder ++ "/cdns") with
  | .error _ => st
  | .ok items =>
    let (files, fcid) := scanLoop (st.baseFolder ++ "/cdns") st.fileMetadata now items [] 1
    { st with files := files, fileCurrentId := fcid }

/-- getFile: a soft-deleted entry is reported as absent. -/
def getFileNC (st : NCState) (id : Nat) : Option File :=
  match jsGet st.files id with
  | none => none
  | some f => if f.isDeleted then none else some f

/-- A Partial File patch, as passed to updateFile: absent properties are
none and are not merged. -/
structure UpdateData where
  idU : Option Nat := none
  filename : Option String := none
  originalFilename : Option String := none
  path : Option String := none
  size : Option Nat := none
  mimeType : Option String := none
  uploadedAt : Option Nat := none
  isDeleted : Option Bool := none
  uploadedBy : Option String := none
  deriving Repr, DecidableEq

/-- The object spread of file and patch: present patch fields override. -/
def mergeFile (f : File) (u : UpdateData) : File :=
  { id := u.idU.getD f.id
    filename := u.filename.getD f.filename
    originalFilename := u.originalFilename.getD f.originalFilename
    path := u.path.getD f.path
    size := u.size.getD f.size
    mimeType := u.mimeType.getD f.mimeType
    uploadedAt := u.uploadedAt.getD f.uploadedAt
    isDeleted := u.isDeleted.getD f.isDeleted
    uploadedBy := u.uploadedBy.getD f.uploadedBy }

/-- updateFile of server/nextcloud-storage.ts.  A patch carrying a new
originalFilename triggers the physical rename: compute the new storage
name (base of the requested name plus the old extension) and destination
path, then try copy-new plus delete-old.  Every failure along the way is
caught: a thrown existence check falls back to a metadata-only update
leaving filename and path untouched, a missing source or a failed copy or
delete still commits the new filename and path.  The sidecar metadata
rename and the metadata saves are remote-only side effects whose failures
are caught and cannot influence the returned record or the map; they are
not repeated here.  Finally the patch is merged and stored. -/
def updateFile (gw : Gateway) (st : NCState) (id : Nat) (upd : UpdateData) : Option File × NCState :=
  match jsGet st.files id with
  | none => (none, st)
  | some file =>
    if file.isDeleted then (none, st)
    else
      let upd :=
        match upd.originalFilename with
        | none => upd
        | some newOrig =>
          if newOrig ≠ file.originalFilename then
            let fileExt := extname file.filename
            let baseNewName := stripExtSuffix newOrig
            let newFilename := baseNewName ++ fileExt
            let destPath := dirname file.path ++ "/" ++ newFilename
            match gw.existsFile file.path with
            | .error _ =>
              -- the outer catch: fall back to the metadata-only update,
              -- with filename and path unchanged
              upd
            | .ok false =>
              -- source object absent: skip the physical rename, update
              -- the stored filename and path only
              { upd with filename := some newFilename, path := some destPath }
            | .ok true =>
              match gw.copyFile file.path destPath with
              | .error _ =>
                -- copy failed: the catch still commits the new names
                { upd with filename := some newFilename, path := some destPath }
              | .ok _ =>
                match gw.deleteRemote file.path with
                | .error _ =>
                  -- delete failed: caught by the same catch, same commit
                  { upd with filename := some newFilename, path := some destPath }
                | .ok _ =>
                  { upd with filename := some newFilename, path := some destPath }
          else upd
      let updatedFile := mergeFile file upd
      (some updatedFile, { st with files := jsSet st.files id updatedFile })

/-- deleteFile of server/nextcloud-storage.ts: mark the entry soft-deleted
in the map first; then check and delete the remote object.  The sidecar
metadata deletion and the metadata save happen afterwards with every
failure caught, so they cannot change the outcome; a thrown existence
check or a thrown remote delete of the main object reaches the outer catch
and reports failure, without rolling the soft-delete mark back. -/
def deleteFileNC (gw : Gateway) (st : NCState) (id : Nat) : Bool × NCState :=
  match jsGet st.files id with
  | none => (false, st)
  | some file =>
    let st := { st with files := jsSet st.files id { file with isDeleted := true } }
    match gw.existsFile file.path with
    | .error _ => (false, st)
    | .ok ex =>
      match (if ex then gw.deleteRemote file.path else Except.ok ()) with
      | .error _ => (false, st)
      | .ok _ => (true, st)

/-! ## The enhanced-storage NextCloudStorage getFiles reconciliation -/

/-- The file side of an enhanced-storage NextCloudStorage instance. -/
structure EnhState where
  files : JsMap File
  fileCurrentId : Nat
  baseFolder : String
  deriving Repr, DecidableEq

/-- The match predicate of the first pass: an in-memory record matches a
listing item when its path equals the item path or its filename equals the
item basename. -/
def enhMatches (item : RemoteItem) (f : File) : Bool :=
  f.path == item.filename || f.filename == item.basename

/-- The record synthesized for a newly discovered remote file. -/
def enhNewFile (now fileId : Nat) (item : RemoteItem) : File :=
  let decodedName := decodeURIComponent item.basename
  { id := fileId
    filename := item.basename
    originalFilename := decodedName
    path := item.filename
    size := item.size
    mimeType := enhMimeType decodedName
    uploadedAt := if item.lastmod ≠ 0 then item.lastmod else now
    isDeleted := false
    uploadedBy := "" }

/-- First pass of the enhanced getFiles: walk the listing, record every
file path, keep the first in-memory record matching each item (the find
runs over the unmodified map values), and synthesize a record for items
matching nothing. -/
def enhPass1 (origValues : List File) (now : Nat) :
    List RemoteItem → List String → JsMap File → Nat → List String × JsMap File × Nat
  | [], nc, acc, fcid => (nc, acc, fcid)
  | item :: rest, nc, acc, fcid =>
    if item.type = "file" then
      let nc := nc ++ [item.filename]
      match origValues.find? (enhMatches item) with
      | some f => enhPass1 origValues now rest nc (jsSet acc f.id f) fcid
      | none => enhPass1 origValues now rest nc (jsSet acc fcid (enhNewFile now fcid item)) (fcid + 1)
    else
      enhPass1 origValues now rest nc acc fcid

/-- Second pass of the enhanced getFiles, over the unmodified map entries:
a live record whose path is not among the listed paths is stored as
soft-deleted, and already-deleted records are carried over. -/
def enhPass2 (nc : List String) : List (Nat × File) → JsMap File → JsMap File
  | [], acc => acc
  | (id, f) :: rest, acc =>
    if !f.isDeleted && !(nc.contains f.path) then
      enhPass2 nc rest (jsSet acc id { f with isDeleted := true })
    else if f.isDeleted then
      enhPass2 nc rest (jsSet acc id f)
    else
      enhPass2 nc rest acc

/-- Descending sort by upload time, as the comparator subtracting upload
times. -/
def insertFileDesc (f : File) : List File → List File
  | [] => [f]
  | g :: rest =>
    if g.uploadedAt < f.uploadedAt then f :: g :: rest else g :: insertFileDesc f rest

/-- Descending sort of a file list by upload time. -/
def sortFilesDesc : List File → List File
  | [] => []
  | f :: rest => insertFileDesc f (sortFilesDesc rest)

/-- The live entries of a map, sorted as the route returns them. -/
def liveFilesSorted (m : JsMap File) : List File :=
  sortFilesDesc ((jsValues m).filter (fun f => !f.isDeleted))

/-- getFiles of the enhanced-storage NextCloudStorage: list the cdns
folder; on failure fall back to the current in-memory live records with
the map untouched; on success run the two reconciliation passes, swap the
map, and return the live records. -/
def getFilesEnhanced (gw : Gateway) (now : Nat) (st : EnhState) : List File × EnhState :=
  match gw.listDir (st.baseFolder ++ "/cdns") with
  | .error _ => (liveFilesSorted st.files, st)
  | .ok items =>
    let (nc, acc, fcid) := enhPass1 (jsValues st.files) now items [] [] st.fileCurrentId
    let files := enhPass2 nc st.files acc
    let st := { st with files := files, fileCurrentId := fcid }
    (liveFilesSorted files, st)

/-! ## saveUsersToNextCloud: remote write with backup, verification and retry

For the backup-before-overwrite claim the order of remote calls matters,
so this model also returns the trace of attempted remote operations. -/

/-- One attempted remote call. -/
inductive RemoteOp where
  | listDirOp (p : String)
  | mkdirOp (p : String)
  | existsOp (p : String)
  | copyOp (src dst : String)
  | putOp (p : String)
  | readOp (p : String)
  deriving Repr, DecidableEq

/-- ensureBaseFolder: probe the base folder and the cdns subfolder,
creating whichever listing fails; every error is swallowed, so only the
trace of attempted calls remains. -/
def ensureBaseFolderOps (gw : Gateway) (base : String) : List RemoteOp :=
  let probe := fun (p : String) =>
    RemoteOp.listDirOp p ::
      (match gw.listDir p with
       | .ok _ => []
       | .error _ => [RemoteOp.mkdirOp p])
  probe base ++ probe (base ++ "/cdns")

/-- One attempt of saveUsersToNextCloud: apply the in-memory repairs,
ensure the folders, back up an existing users.json (an existence check
that throws, or a copy that fails, is logged and skipped), write the
document, and on success read it back for verification (whose failures
are logged only).  A failed write surfaces as an error for the retry
wrapper. -/
def saveUsersAttempt (gw : Gateway) (st : UserState) :
    Except Unit Unit × UserState × List RemoteOp :=
  let st := saveUsersLocalEffect st
  let path := st.baseFolder ++ "/users.json"
  let backupPath := st.baseFolder ++ "/users.backup.json"
  let ops := ensureBaseFolderOps gw st.baseFolder
  let ops := ops ++ [RemoteOp.existsOp path] ++
    (match gw.existsFile path with
     | .ok true => [RemoteOp.copyOp path backupPath]
     | _ => [])
  let ops := ops ++ [RemoteOp.putOp path]
  match gw.putFile path with
  | .error _ => (.error (), st, ops)
  | .ok _ => (.ok (), st, ops ++ [RemoteOp.readOp path])

/-- The retry wrapper: on a failed write, wait with exponential backoff
and recurse while attempts remain; the argument counts the retries still
allowed. -/
def saveUsersRetry (gw : Gateway) (st : UserState) :
    Nat → Except Unit Unit × UserState × List RemoteOp
  | 0 => saveUsersAttempt gw st
  | n + 1 =>
    match saveUsersAttempt gw st with
    | (.ok r, st, ops) => (.ok r, st, ops)
    | (.error _, st, ops) =>
      let (r, st, ops2) := saveUsersRetry gw st n
      (r, st, ops ++ ops2)

/-- saveUsersToNextCloud: up to three retries after the first attempt. -/
def saveUsersToNextCloud (gw : Gateway) (st : UserState) :
    Except Unit Unit × UserState × List RemoteOp :=
  saveUsersRetry gw st 3
/-! ## Map lemmas -/

theorem jsGet_jsSet_self {α : Type} (m : JsMap α) (k : Nat) (v : α) :
    jsGet (jsSet m k v) k = some v := by
  induction m with
  | nil => simp [jsSet, jsGet]
  | cons p rest ih =>
    obtain ⟨k0, v0⟩ := p
    by_cases h : k0 = k
    · simp [jsSet, jsGet, h]
    · simp [jsSet, jsGet, h, ih]

theorem jsGet_jsSet_ne {α : Type} (m : JsMap α) (k j : Nat) (v : α) (hne : j ≠ k) :
    jsGet (jsSet m k v) j = jsGet m j := by
  induction m with
  | nil =>
    have : ¬ (k = j) := fun h => hne h.symm
    simp [jsSet, jsGet, this]
  | cons p rest ih =>
    obtain ⟨k0, v0⟩ := p
    by_cases h : k0 = k
    · have : ¬ (k = j) := fun hkj => hne hkj.symm
      simp [jsSet, jsGet, h, this]
    · simp [jsSet, jsGet, h, ih]

theorem jsGet_jsDelete_self {α : Type} (m : JsMap α) (k : Nat) :
    jsGet (jsDelete m k) k = none := by
  induction m with
  | nil => simp [jsDelete, jsGet]
  | cons p rest ih =>
    obtain ⟨k0, v0⟩ := p
    by_cases h : k0 = k
    · simp [jsDelete, h, ih]
    · simp [jsDelete, jsGet, h, ih]

theorem jsValues_jsSet_mem {α : Type} (m : JsMap α) (k : Nat) (v x : α)
    (hx : x ∈ jsValues (jsSet m k v)) : x = v ∨ x ∈ jsValues m := by
  induction m with
  | nil => simpa [jsSet, jsValues] using hx
  | cons p rest ih =>
    obtain ⟨k0, v0⟩ := p
    by_cases h : k0 = k
    · simp [jsSet, jsValues, h] at hx
      rcases hx with hx | hx
      · exact Or.inl hx
      · exact Or.inr (by simp [jsValues, hx])
    · simp [jsSet, jsValues, h] at hx
      rcases hx with hx | hx
      · exact Or.inr (by simp [jsValues, hx])
      · rcases ih (by simpa [jsValues] using hx) with h' | h'
        · exact Or.inl h'
        · exact Or.inr (by simp [jsValues] at h' ⊢; exact Or.inr h')

/-! ## Fixtures for concrete scenarios -/

/-- A primordial administrator account at id one. -/
def demoAdmin : User :=
  { id := 1
    username := adminUsername
    password := "hash1"
    role := "admin"
    status := "approved"
    isApproved := true }

/-- A second, ordinary administrator account at id two. -/
def demoSecondAdmin : User :=
  { id := 2
    username := "other"
    password := "hash2"
    role := "admin"
    status := "approved"
    isApproved := true }

/-- A user store holding the primordial administrator and a second admin. -/
def demoUserState : UserState :=
  { users := [(1, demoAdmin), (2, demoSecondAdmin)]
    userCurrentId := 3
    baseFolder := "LyreTeams" }

/-- A live catalog entry. -/
def demoFile : File :=
  { id := 1
    filename := "a.png"
    originalFilename := "a.png"
    path := "LyreTeams/cdns/a.png"
    size := 3
    mimeType := "image/png"
    uploadedAt := 10
    isDeleted := false
    uploadedBy := "alice" }

/-- A catalog holding the one live entry. -/
def demoNCState : NCState :=
  { files := [(1, demoFile)]
    fileCurrentId := 2
    fileMetadata := none
    baseFolder := "LyreTeams" }

/-- A gateway whose remote delete always throws (existence checks
succeed). -/
def failingDeleteGw : Gateway :=
  { existsFile := fun _ => .ok true
    readFile := fun _ => .error ()
    putFile := fun _ => .ok ()
    copyFile := fun _ _ => .ok ()
    deleteRemote := fun _ => .error ()
    listDir := fun _ => .error ()
    mkdir := fun _ => .ok () }

/-- A gateway whose copy and delete always throw. -/
def failingCopyDeleteGw : Gateway :=
  { existsFile := fun _ => .ok true
    readFile := fun _ => .error ()
    putFile := fun _ => .ok ()
    copyFile := fun _ _ => .error ()
    deleteRemote := fun _ => .error ()
    listDir := fun _ => .error ()
    mkdir := fun _ => .ok () }

/-- A gateway on which every remote operation throws. -/
def downGw : Gateway :=
  { existsFile := fun _ => .error ()
    readFile := fun _ => .error ()
    putFile := fun _ => .error ()
    copyFile := fun _ _ => .error ()
    deleteRemote := fun _ => .error ()
    listDir := fun _ => .error ()
    mkdir := fun _ => .error () }

/-! ## C1 -/

/-- A users.json content whose primordial administrator carries a
rejected approval-status. -/
def rejectedAdminInput : List RawUser :=
  [{ id := 1
     username := adminUsername
     password := "hash1"
     role := "admin"
     status := "rejected"
     isApproved := false }]

/-- C1 counterexample: loading an account list whose primordial
administrator has approval-status rejected, then running the consistency
verification, leaves that status rejected - the load pass coerces only the
role, so the claim that the approval-status is always restored to approved
fails on this input. -/
theorem loadVerify_admin_counterexample :
    ¬ (∀ u ∈ jsValues (verifyStorageConsistency
          (loadUsersFromList "LyreTeams" rejectedAdminInput)).users,
        u.username = adminUsername → u.status = "approved") := by
  decide

/-! ## C2 -/

/-- C2 counterexample: with a second admin present, the remove-admin route
called on the primordial administrator id succeeds and demotes the account
to an ordinary user - no Forbidden rejection, and the account list
changes. -/
theorem removeAdmin_primordial_counterexample :
    (removeAdminRoute demoUserState 1).1 = .okUser { demoAdmin with role := "user" } ∧
    jsGet (removeAdminRoute demoUserState 1).2.users 1 = some { demoAdmin with role := "user" } := by
  constructor <;> rfl

/-- C2 amended: the remove-admin and delete-user routes have no check for
the primordial login-name.  When at least two admins exist they demote or
delete the primordial administrator like any other account; only when the
target is the last remaining admin do they refuse, and then with status
400, not Forbidden (delete also refuses a self-target with 400). -/
theorem adminRoutes_lastAdmin_only (st : UserState) (callerId targetId : Nat) (a : User)
    (hget : jsGet st.users targetId = some a) (hname : a.username = adminUsername)
    (hrole : a.role = "admin") :
    (2 ≤ adminCount st.users →
      (removeAdminRoute st targetId).1 = .okUser { a with role := "user" } ∧
      (callerId ≠ targetId →
        (deleteUserRoute st callerId targetId).1 = .okMsg "User deleted successfully" ∧
        jsGet (deleteUserRoute st callerId targetId).2.users targetId = none)) ∧
    (adminCount st.users ≤ 1 →
      (removeAdminRoute st targetId).1 = .err 400 "Cannot remove the last admin user" ∧
      (removeAdminRoute st targetId).2 = st ∧
      (deleteUserRoute st callerId targetId).1 = .err 400 "Cannot delete the last admin user" ∧
      (deleteUserRoute st callerId targetId).2 = st) := by
  constructor
  · intro hcount
    have hnot : ¬ (adminCount st.users ≤ 1 ∧ a.role = "admin") := by
      intro h
      omega
    constructor
    · simp [removeAdminRoute, hget, hnot]
    · intro hne
      have hne' : ¬ (callerId = targetId) := hne
      simp [deleteUserRoute, hget, hnot, hne', jsGet_jsDelete_self]
  · intro hcount
    have hyes : adminCount st.users ≤ 1 ∧ a.role = "admin" := ⟨hcount, hrole⟩
    refine ⟨?_, ?_, ?_, ?_⟩ <;> simp [removeAdminRoute, deleteUserRoute, hget, hyes]

/-- C2 amended, witness: the two-admin store, where remove-admin on the
primordial id succeeds, and the one-admin store after deletion of the
second admin, where it fails with 400. -/
theorem adminRoutes_lastAdmin_only_witness :
    jsGet demoUserState.users 1 = some demoAdmin ∧
    demoAdmin.username = adminUsername ∧ demoAdmin.role = "admin" ∧
    (2 ≤ adminCount demoUserState.users →
      (removeAdminRoute demoUserState 1).1 = .okUser { demoAdmin with role := "user" } ∧
      ((2 : Nat) ≠ 1 →
        (deleteUserRoute demoUserState 2 1).1 = .okMsg "User deleted successfully" ∧
        jsGet (deleteUserRoute demoUserState 2 1).2.users 1 = none)) := by
  refine ⟨by rfl, by rfl, by rfl, ?_⟩
  exact (adminRoutes_lastAdmin_only demoUserState 2 1 demoAdmin (by rfl) (by rfl) (by rfl)).1
/-! ## C3 -/

/-- C3: for an existing non-deleted entry, even against a gateway whose
copy and delete always throw, updateFile with a new originalFilename
returns an updated record (not a failure) whose originalFilename is the
requested display name, and stores that record in the catalog. -/
theorem updateFile_rename_commits_metadata (gw : Gateway) (st : NCState) (id : Nat)
    (file : File) (newName : String)
    (hfile : jsGet st.files id = some file) (hlive : file.isDeleted = false)
    (hcopy : ∀ s d, gw.copyFile s d = .error ())
    (hdelete : ∀ p, gw.deleteRemote p = .error ()) :
    ∃ f, (updateFile gw st id { originalFilename := some newName }).1 = some f ∧
      f.originalFilename = newName ∧
      jsGet (updateFile gw st id { originalFilename := some newName }).2.files id = some f := by
  unfold updateFile
  simp only [hfile, hlive, Bool.false_eq_true, if_false]
  by_cases hn : newName ≠ file.originalFilename
  · rw [if_pos hn]
    cases hex : gw.existsFile file.path with
    | error e =>
      exact ⟨_, rfl, rfl, jsGet_jsSet_self _ _ _⟩
    | ok b =>
      cases b with
      | false =>
        exact ⟨_, rfl, rfl, jsGet_jsSet_self _ _ _⟩
      | true =>
        rw [hcopy]
        exact ⟨_, rfl, rfl, jsGet_jsSet_self _ _ _⟩
  · rw [if_neg hn]
    exact ⟨_, rfl, rfl, jsGet_jsSet_self _ _ _⟩

/-- C3 witness: renaming the demo entry against the failing gateway. -/
theorem updateFile_rename_commits_metadata_witness :
    jsGet demoNCState.files 1 = some demoFile ∧ demoFile.isDeleted = false ∧
    ∃ f, (updateFile failingCopyDeleteGw demoNCState 1 { originalFilename := some "b.png" }).1 = some f ∧
      f.originalFilename = "b.png" ∧
      jsGet (updateFile failingCopyDeleteGw demoNCState 1 { originalFilename := some "b.png" }).2.files 1 = some f := by
  refine ⟨by rfl, by rfl, ?_⟩
  exact updateFile_rename_commits_metadata failingCopyDeleteGw demoNCState 1 demoFile "b.png"
    (by rfl) (by rfl) (fun s d => rfl) (fun p => rfl)

/-! ## C4 -/

/-- C4 counterexample: when the remote delete of the main object throws,
deleteFile returns false - a reported failure - even though the catalog
soft-delete mark succeeded, contradicting the claim that a successful
catalog mark alone yields success. -/
theorem deleteFile_reports_failure_counterexample :
    (deleteFileNC failingDeleteGw demoNCState 1).1 = false ∧
    jsGet (deleteFileNC failingDeleteGw demoNCState 1).2.files 1 =
      some { demoFile with isDeleted := true } := by
  constructor <;> rfl

/-- A gateway reporting every object as absent, with all other operations
succeeding. -/
def absentObjectGw : Gateway :=
  { existsFile := fun _ => .ok false
    readFile := fun _ => .error ()
    putFile := fun _ => .ok ()
    copyFile := fun _ _ => .ok ()
    deleteRemote := fun _ => .ok ()
    listDir := fun _ => .ok []
    mkdir := fun _ => .ok () }

/-- C4 amended: deleteFile marks the entry soft-deleted and returns
success exactly when the remote existence check and (when the object
exists) the remote delete of the main object do not throw; failures of the
sidecar-metadata deletion or of the metadata save are caught and logged
and never affect the outcome, but a throwing main-object check or delete
makes the call report failure even though the catalog mark stands. -/
theorem deleteFile_success_path (gw : Gateway) (st : NCState) (id : Nat) (file : File)
    (hfile : jsGet st.files id = some file)
    (hok : gw.existsFile file.path = .ok false ∨
      (gw.existsFile file.path = .ok true ∧ gw.deleteRemote file.path = .ok ())) :
    (deleteFileNC gw st id).1 = true ∧
    jsGet (deleteFileNC gw st id).2.files id = some { file with isDeleted := true } := by
  unfold deleteFileNC
  rcases hok with hex | ⟨hex, hdel⟩
  · simp only [hfile, hex]
    exact ⟨rfl, jsGet_jsSet_self _ _ _⟩
  · simp only [hfile, hex, hdel, if_pos rfl]
    exact ⟨rfl, jsGet_jsSet_self _ _ _⟩

/-- C4 amended, witness: deleting the demo entry when the remote reports
the object absent. -/
theorem deleteFile_success_path_witness :
    jsGet demoNCState.files 1 = some demoFile ∧
    (deleteFileNC absentObjectGw demoNCState 1).1 = true ∧
    jsGet (deleteFileNC absentObjectGw demoNCState 1).2.files 1 =
      some { demoFile with isDeleted := true } := by
  refine ⟨by rfl, ?_⟩
  exact deleteFile_success_path absentObjectGw demoNCState 1 demoFile (by rfl) (Or.inl rfl)

/-! ## C10 -/

/-- C10: when the remote existence check or the remote delete throws,
deleteFile returns false, yet the entry is already marked soft-deleted in
the map - the mark is not rolled back - and a subsequent getFile finds no
entry despite the reported failure. -/
theorem deleteFile_error_marks_deleted (gw : Gateway) (st : NCState) (id : Nat) (file : File)
    (hfile : jsGet st.files id = some file)
    (herr : gw.existsFile file.path = .error () ∨
      (gw.existsFile file.path = .ok true ∧ gw.deleteRemote file.path = .error ())) :
    (deleteFileNC gw st id).1 = false ∧
    jsGet (deleteFileNC gw st id).2.files id = some { file with isDeleted := true } ∧
    getFileNC (deleteFileNC gw st id).2 id = none := by
  have hmark : (deleteFileNC gw st id).1 = false ∧
      jsGet (deleteFileNC gw st id).2.files id = some { file with isDeleted := true } := by
    unfold deleteFileNC
    rcases herr with hex | ⟨hex, hdel⟩
    · simp only [hfile, hex]
      exact ⟨by trivial, jsGet_jsSet_self _ _ _⟩
    · simp only [hfile, hex, hdel, if_pos rfl]
      exact ⟨by trivial, jsGet_jsSet_self _ _ _⟩
  refine ⟨hmark.1, hmark.2, ?_⟩
  unfold getFileNC
  rw [hmark.2]
  simp

/-- C10 witness: the failing-delete gateway on the demo catalog. -/
theorem deleteFile_error_marks_deleted_witness :
    jsGet demoNCState.files 1 = some demoFile ∧
    (deleteFileNC failingDeleteGw demoNCState 1).1 = false ∧
    jsGet (deleteFileNC failingDeleteGw demoNCState 1).2.files 1 =
      some { demoFile with isDeleted := true } ∧
    getFileNC (deleteFileNC failingDeleteGw demoNCState 1).2 1 = none := by
  refine ⟨by rfl, ?_⟩
  exact deleteFile_error_marks_deleted failingDeleteGw demoNCState 1 demoFile (by rfl)
    (Or.inr ⟨rfl, rfl⟩)

/-! ## C5 -/

/-- C5: when listing the remote file folder fails, both reconciliation
variants abort: the initialization scan leaves the whole state untouched,
and the enhanced getFiles leaves its state untouched (serving the prior
in-memory catalog). -/
theorem listing_failure_preserves_catalog (gw : Gateway) (now : Nat)
    (st : NCState) (est : EnhState)
    (h1 : gw.listDir (st.baseFolder ++ "/cdns") = .error ())
    (h2 : gw.listDir (est.baseFolder ++ "/cdns") = .error ()) :
    scanFilesFromNextCloud gw now st = st ∧ (getFilesEnhanced gw now est).2 = est := by
  constructor
  · unfold scanFilesFromNextCloud
    rw [h1]
  · unfold getFilesEnhanced
    rw [h2]

/-- C5 witness: the all-failing gateway on the demo catalog and on an
enhanced-storage state holding the same entry. -/
theorem listing_failure_preserves_catalog_witness :
    downGw.listDir (demoNCState.baseFolder ++ "/cdns") = .error () ∧
    scanFilesFromNextCloud downGw 7 demoNCState = demoNCState ∧
    (getFilesEnhanced downGw 7
      { files := [(1, demoFile)], fileCurrentId := 2, baseFolder := "LyreTeams" }).2 =
      { files := [(1, demoFile)], fileCurrentId := 2, baseFolder := "LyreTeams" } := by
  refine ⟨by rfl, ?_⟩
  exact listing_failure_preserves_catalog downGw 7 demoNCState
    { files := [(1, demoFile)], fileCurrentId := 2, baseFolder := "LyreTeams" }
    (by rfl) (by rfl)

/-! ## C7 -/

/-- A listing item standing for a plain remote file with no server mime. -/
def aliasItem (b fn : String) : RemoteItem :=
  { basename := b, filename := fn, type := "file", size := 1, mime := "", lastmod := 5 }

/-- A live catalog record with the given id, filename and path. -/
def aliasFile (i : Nat) (fn p : String) : File :=
  { id := i
    filename := fn
    originalFilename := fn
    path := p
    size := 1
    mimeType := "m"
    uploadedAt := 1
    isDeleted := false
    uploadedBy := "" }

/-- A fixed remote listing of four files. -/
def aliasItems : List RemoteItem :=
  [aliasItem "c" "C", aliasItem "d" "D", aliasItem "p" "P", aliasItem "q" "Q"]

/-- A gateway always returning that listing. -/
def aliasGw : Gateway :=
  { existsFile := fun _ => .ok false
    readFile := fun _ => .error ()
    putFile := fun _ => .ok ()
    copyFile := fun _ _ => .ok ()
    deleteRemote := fun _ => .ok ()
    listDir := fun _ => .ok aliasItems
    mkdir := fun _ => .ok () }

/-- A catalog state in which one entry aliases another by path and a third
by name: entry two shares its path with entry one and its filename with
entry three. -/
def aliasState : EnhState :=
  { files := [(1, aliasFile 1 "c" "P"), (2, aliasFile 2 "q" "P"), (3, aliasFile 3 "q" "D")]
    fileCurrentId := 4
    baseFolder := "B" }

/-- C7 counterexample: with a fixed remote listing and no remote change,
one enhanced getFiles pass keeps entry two alive, but the second pass
drops it from the catalog entirely - the first pass of run two matches its
listing items to other aliased entries and the second pass neither keeps
nor soft-deletes it - so running the reconciliation twice does not yield
the catalog of running it once. -/
theorem getFiles_second_pass_counterexample :
    jsGet (getFilesEnhanced aliasGw 100 aliasState).2.files 2 = some (aliasFile 2 "q" "P") ∧
    jsGet (getFilesEnhanced aliasGw 100 (getFilesEnhanced aliasGw 100 aliasState).2).2.files 2 = none := by
  constructor <;> rfl

/-- C7 amended: the initialization-time reconciliation,
scanFilesFromNextCloud, is idempotent: its result is a function of the
listing and the cached metadata alone (it clears the map and the counter
first), so a second run with no intervening remote change reproduces the
same catalog exactly - and in particular creates no duplicate entries.
The enhanced getFiles variant is the one that falsifies the claim as
stated. -/
theorem scan_idempotent (gw : Gateway) (now : Nat) (st : NCState) :
    scanFilesFromNextCloud gw now (scanFilesFromNextCloud gw now st) =
      scanFilesFromNextCloud gw now st := by
  unfold scanFilesFromNextCloud
  cases h : gw.listDir (st.baseFolder ++ "/cdns") with
  | error e => simp [h]
  | ok items => simp [h]

/-! ## C8 -/

/-- The persistence-time in-memory repairs leave the base folder alone. -/
theorem saveUsersLocalEffect_baseFolder (st : UserState) :
    (saveUsersLocalEffect st).baseFolder = st.baseFolder := by
  unfold saveUsersLocalEffect
  cases h : (jsValues st.users).find? (fun u => u.username == adminUsername) <;> rfl

/-- The folder-probing step never attempts a document write. -/
theorem ensureBaseFolderOps_no_put (gw : Gateway) (base : String) (q : String) :
    RemoteOp.putOp q ∉ ensureBaseFolderOps gw base := by
  unfold ensureBaseFolderOps
  cases h1 : gw.listDir base <;> cases h2 : gw.listDir (base ++ "/cdns") <;>
    simp [h1, h2]

/-- C8: whenever users.json already exists remotely, saveUsersToNextCloud
attempts the copy to the sibling backup path strictly before any write of
users.json, and the write is attempted and the call succeeds whatever the
backup copy returned - the copy result is never consulted, so a failed
backup neither prevents nor fails the main write. -/
theorem saveUsers_backup_before_write (gw : Gateway) (st : UserState)
    (hex : gw.existsFile (st.baseFolder ++ "/users.json") = .ok true)
    (hput : gw.putFile (st.baseFolder ++ "/users.json") = .ok ()) :
    (saveUsersToNextCloud gw st).1 = .ok () ∧
    ∃ pre post,
      (saveUsersToNextCloud gw st).2.2 =
        pre ++ RemoteOp.copyOp (st.baseFolder ++ "/users.json")
          (st.baseFolder ++ "/users.backup.json") :: post ∧
      (∀ q, RemoteOp.putOp q ∉ pre) ∧
      RemoteOp.putOp (st.baseFolder ++ "/users.json") ∈ post := by
  unfold saveUsersToNextCloud saveUsersRetry saveUsersAttempt
  simp only [saveUsersLocalEffect_baseFolder, hex, hput]
  refine ⟨by trivial, ensureBaseFolderOps gw st.baseFolder ++
      [RemoteOp.existsOp (st.baseFolder ++ "/users.json")],
    [RemoteOp.putOp (st.baseFolder ++ "/users.json"),
     RemoteOp.readOp (st.baseFolder ++ "/users.json")], ?_, ?_, ?_⟩
  · simp
  · intro q hq
    rw [List.mem_append] at hq
    rcases hq with hq | hq
    · exact ensureBaseFolderOps_no_put gw _ q hq
    · simp at hq
  · simp

/-- C8 witness: a gateway on which users.json exists, the write succeeds
and the backup copy always throws; the save still succeeds and the backup
copy is attempted before the write. -/
theorem saveUsers_backup_before_write_witness :
    failingCopyDeleteGw.existsFile (demoUserState.baseFolder ++ "/users.json") = .ok true ∧
    failingCopyDeleteGw.putFile (demoUserState.baseFolder ++ "/users.json") = .ok () ∧
    ((saveUsersToNextCloud failingCopyDeleteGw demoUserState).1 = .ok () ∧
      ∃ pre post,
        (saveUsersToNextCloud failingCopyDeleteGw demoUserState).2.2 =
          pre ++ RemoteOp.copyOp (demoUserState.baseFolder ++ "/users.json")
            (demoUserState.baseFolder ++ "/users.backup.json") :: post ∧
        (∀ q, RemoteOp.putOp q ∉ pre) ∧
        RemoteOp.putOp (demoUserState.baseFolder ++ "/users.json") ∈ post) := by
  refine ⟨by rfl, by rfl, ?_⟩
  exact saveUsers_backup_before_write failingCopyDeleteGw demoUserState (by rfl) (by rfl)

/-! ## C9 -/

/-- Setting a fresh key appends. -/
theorem jsSet_fresh {α : Type} (m : JsMap α) (k : Nat) (v : α)
    (h : ∀ p ∈ m, p.1 ≠ k) : jsSet m k v = m ++ [(k, v)] := by
  induction m with
  | nil => rfl
  | cons p rest ih =>
    obtain ⟨k0, v0⟩ := p
    have hk0 : k0 ≠ k := h (k0, v0) (by simp)
    have : (k0 == k) = false := by simpa using hk0
    simp only [jsSet, this, Bool.false_eq_true, if_false, List.cons_append, List.cons.injEq,
      true_and]
    exact ih (fun q hq => h q (by simp [hq]))

/-- Cached metadata never changes the storage filename of a record. -/
theorem applyCachedMeta_filename (meta : Option (List (String × FileMeta)))
    (name : String) (f : File) : (applyCachedMeta meta name f).filename = f.filename := by
  unfold applyCachedMeta
  cases metaLookup meta name with
  | none => rfl
  | some m =>
    cases hup : m.uploadedAt <;>
      by_cases h1 : m.uploadedBy ≠ "" <;> by_cases h2 : m.originalFilename ≠ "" <;>
        simp [hup, h1, h2]

/-- Absent cached metadata leaves a scanned record untouched. -/
theorem applyCachedMeta_none (meta : Option (List (String × FileMeta)))
    (name : String) (f : File) (h : metaLookup meta name = none) :
    applyCachedMeta meta name f = f := by
  unfold applyCachedMeta
  rw [h]

/-- Restatement of the filename preservation for rewriting under binders. -/
theorem applyCachedMeta_filename_beq (meta : Option (List (String × FileMeta)))
    (n : String) (f : File) (name : String) :
    ((applyCachedMeta meta n f).filename == name) = (f.filename == name) := by
  rw [applyCachedMeta_filename]

/-- The scan loop adds, for a given storage name, exactly one record per
non-directory, non-skipped listing item bearing that basename. -/
theorem scanLoop_count (c : String) (meta : Option (List (String × FileMeta)))
    (now : Nat) (name : String) (hskip : scanSkip name = false) :
    ∀ (items : List RemoteItem) (files : JsMap File) (fcid : Nat),
      (∀ p ∈ files, p.1 < fcid) →
      ((jsValues (scanLoop c meta now items files fcid).1).filter
          (fun f => f.filename == name)).length =
        ((jsValues files).filter (fun f => f.filename == name)).length +
          items.countP (fun i => (!(i.type == "directory")) && (strBasename i.basename == name)) := by
  intro items
  induction items with
  | nil => intro files fcid hkeys; simp [scanLoop]
  | cons item rest ih =>
    intro files fcid hkeys
    by_cases hdir : item.type = "directory"
    · have hb : (item.type == "directory") = true := by simpa using hdir
      simp only [scanLoop, List.countP_cons, hb, Bool.not_true, Bool.false_and, if_pos hdir]
      simpa using ih files fcid hkeys
    · have hb : (item.type == "directory") = false := by simpa using hdir
      simp only [scanLoop, if_neg hdir]
      by_cases hsk : scanSkip (strBasename item.basename) = true
      · have hne : (strBasename item.basename == name) = false := by
          rcases Bool.eq_false_or_eq_true (strBasename item.basename == name) with h | h
          · exfalso
            have heq : strBasename item.basename = name := by simpa using h
            rw [heq, hskip] at hsk
            exact Bool.false_ne_true hsk
          · exact h
        rw [if_pos hsk, ih files fcid hkeys]
        simp [List.countP_cons, hb, hne]
      · rw [if_neg hsk]
        rw [jsSet_fresh _ _ _ (fun p hp => Nat.ne_of_lt (hkeys p hp))]
        rw [ih _ (fcid + 1) ?fresh]
        case fresh =>
          intro p hp
          rcases List.mem_append.1 hp with hp | hp
          · exact Nat.lt_succ_of_lt (hkeys p hp)
          · rw [List.mem_singleton] at hp
            rw [hp]
            exact Nat.lt_succ_self fcid
        by_cases heq : strBasename item.basename = name
        · have hbq : (strBasename item.basename == name) = true := by simpa using heq
          simp [jsValues, List.filter_cons, List.countP_cons, hb, hbq,
            applyCachedMeta_filename_beq]
          omega
        · have hbq : (strBasename item.basename == name) = false := by simpa using heq
          simp [jsValues, List.filter_cons, List.countP_cons, hb, hbq,
            applyCachedMeta_filename_beq]

/-- Records the scan loop adds for a given storage name with no cached
metadata inherit the inferred mime type, the sentinel uploader and a live
delete flag. -/
theorem scanLoop_prop (c : String) (meta : Option (List (String × FileMeta)))
    (now : Nat) (name : String) (hmeta : metaLookup meta name = none) :
    ∀ (items : List RemoteItem),
      (∀ i ∈ items, strBasename i.basename = name → i.mime = "") →
      ∀ (files : JsMap File) (fcid : Nat),
        (∀ f ∈ jsValues files, f.filename = name →
          f.mimeType = getMimeTypeFromFilename name ∧ f.uploadedBy = "system" ∧
            f.isDeleted = false) →
        ∀ f ∈ jsValues (scanLoop c meta now items files fcid).1, f.filename = name →
          f.mimeType = getMimeTypeFromFilename name ∧ f.uploadedBy = "system" ∧
            f.isDeleted = false := by
  intro items
  induction items with
  | nil =>
    intro _ files fcid hinv
    simpa [scanLoop] using hinv
  | cons item rest ih =>
    intro hmime files fcid hinv
    have hmimeRest : ∀ i ∈ rest, strBasename i.basename = name → i.mime = "" :=
      fun i hi => hmime i (List.mem_cons_of_mem _ hi)
    by_cases hdir : item.type = "directory"
    · simp only [scanLoop, if_pos hdir]
      exact ih hmimeRest files fcid hinv
    · simp only [scanLoop, if_neg hdir]
      by_cases hsk : scanSkip (strBasename item.basename) = true
      · rw [if_pos hsk]
        exact ih hmimeRest files fcid hinv
      · rw [if_neg hsk]
        apply ih hmimeRest
        intro f hf hfn
        rcases jsValues_jsSet_mem _ _ _ _ hf with hf | hf
        · subst hf
          have hbase : strBasename item.basename = name := by
            rw [applyCachedMeta_filename] at hfn
            exact hfn
          rw [hbase, applyCachedMeta_none _ _ _ hmeta]
          have hm : item.mime = "" := hmime item (List.mem_cons_self _ _) hbase
          simp [hm]
        · exact hinv f hf hfn

/-- C9: when the listing holds exactly one non-directory item named
orphan.png, that item reports no server mime type, and neither the bulk
metadata nor the sidecars cached anything for it, the rebuilt catalog
holds exactly one record with storage name orphan.png, and that record
carries the table-inferred content type image/png, the sentinel uploader
system, and is live. -/
theorem scan_discovers_orphan (gw : Gateway) (now : Nat) (st : NCState)
    (items : List RemoteItem)
    (hlist : gw.listDir (st.baseFolder ++ "/cdns") = .ok items)
    (hone : items.countP
      (fun i => (!(i.type == "directory")) && (strBasename i.basename == "orphan.png")) = 1)
    (hmime : ∀ i ∈ items, strBasename i.basename = "orphan.png" → i.mime = "")
    (hmeta : metaLookup st.fileMetadata "orphan.png" = none) :
    ((jsValues (scanFilesFromNextCloud gw now st).files).filter
        (fun f => f.filename == "orphan.png")).length = 1 ∧
    ∀ f ∈ jsValues (scanFilesFromNextCloud gw now st).files, f.filename = "orphan.png" →
      f.mimeType = "image/png" ∧ f.uploadedBy = "system" ∧ f.isDeleted = false := by
  have hskip : scanSkip "orphan.png" = false := by decide
  have hfe : (scanFilesFromNextCloud gw now st).files =
      (scanLoop (st.baseFolder ++ "/cdns") st.fileMetadata now items [] 1).1 := by
    unfold scanFilesFromNextCloud
    rw [hlist]
  have hgm : getMimeTypeFromFilename "orphan.png" = "image/png" := by decide
  rw [hfe]
  constructor
  · have hc := scanLoop_count (st.baseFolder ++ "/cdns") st.fileMetadata now "orphan.png"
      hskip items [] 1 (by intro p hp; exact absurd hp (List.not_mem_nil p))
    rw [hc, hone]
    rfl
  · intro f hf hfn
    have := scanLoop_prop (st.baseFolder ++ "/cdns") st.fileMetadata now "orphan.png"
      hmeta items hmime [] 1 (by intro f hf; exact absurd hf (List.not_mem_nil f)) f hf hfn
    rw [hgm] at this
    exact this

/-- The orphan listing: a single remote file with no cached knowledge. -/
def orphanItems : List RemoteItem :=
  [{ basename := "orphan.png", filename := "LyreTeams/cdns/orphan.png",
     type := "file", size := 42, mime := "", lastmod := 9 }]

/-- A gateway whose cdns listing holds only the orphan file. -/
def orphanGw : Gateway :=
  { existsFile := fun _ => .ok true
    readFile := fun _ => .error ()
    putFile := fun _ => .ok ()
    copyFile := fun _ _ => .ok ()
    deleteRemote := fun _ => .ok ()
    listDir := fun _ => .ok orphanItems
    mkdir := fun _ => .ok () }

/-- An empty catalog with no cached metadata loaded. -/
def emptyNCState : NCState :=
  { files := [], fileCurrentId := 1, fileMetadata := none, baseFolder := "LyreTeams" }

/-- C9 witness: scanning the orphan listing over the empty catalog. -/
theorem scan_discovers_orphan_witness :
    orphanGw.listDir (emptyNCState.baseFolder ++ "/cdns") = .ok orphanItems ∧
    (((jsValues (scanFilesFromNextCloud orphanGw 9 emptyNCState).files).filter
        (fun f => f.filename == "orphan.png")).length = 1 ∧
      ∀ f ∈ jsValues (scanFilesFromNextCloud orphanGw 9 emptyNCState).files,
        f.filename = "orphan.png" →
        f.mimeType = "image/png" ∧ f.uploadedBy = "system" ∧ f.isDeleted = false) := by
  refine ⟨by rfl, ?_⟩
  exact scan_discovers_orphan orphanGw 9 emptyNCState orphanItems (by rfl) (by decide)
    (by decide) (by rfl)

/-! ## C6 -/

/-- A prior catalog whose entry two holds a.png uploaded by alice. -/
def scanPrevState : NCState :=
  { files :=
      [(1, { id := 1, filename := "x.png", originalFilename := "x.png",
             path := "LyreTeams/cdns/x.png", size := 1, mimeType := "image/png",
             uploadedAt := 3, isDeleted := false, uploadedBy := "alice" }),
       (2, { id := 2, filename := "a.png", originalFilename := "a.png",
             path := "LyreTeams/cdns/a.png", size := 1, mimeType := "image/png",
             uploadedAt := 4, isDeleted := false, uploadedBy := "alice" })]
    fileCurrentId := 3
    fileMetadata := none
    baseFolder := "LyreTeams" }

/-- A gateway whose cdns listing holds only a.png. -/
def scanAGw : Gateway :=
  { existsFile := fun _ => .ok true
    readFile := fun _ => .error ()
    putFile := fun _ => .ok ()
    copyFile := fun _ _ => .ok ()
    deleteRemote := fun _ => .ok ()
    listDir := fun _ => .ok
      [{ basename := "a.png", filename := "LyreTeams/cdns/a.png",
         type := "file", size := 5, mime := "", lastmod := 0 }]
    mkdir := fun _ => .ok () }

/-- C6 counterexample: the initialization scan clears the map and
renumbers from one, so the existing entry two for a.png - whose
storage-key is present in the listing - is not retained: afterwards key
two is gone and key one, which previously held x.png, holds a freshly
numbered a.png record with the sentinel uploader instead of alice. -/
theorem scan_rebuilds_catalog_counterexample :
    jsGet (scanFilesFromNextCloud scanAGw 50 scanPrevState).files 2 = none ∧
    jsGet (scanFilesFromNextCloud scanAGw 50 scanPrevState).files 1 =
      some { id := 1, filename := "a.png", originalFilename := "a.png",
             path := "LyreTeams/cdns/a.png", size := 5, mimeType := "image/png",
             uploadedAt := 50, isDeleted := false, uploadedBy := "system" } := by
  constructor <;> rfl

/-- Two entries of a map with duplicate-free keys sharing a key coincide. -/
theorem nodupKeys_eq {α : Type} :
    ∀ (l : JsMap α), (l.map Prod.fst).Nodup →
      ∀ {k : Nat} {a b : α}, (k, a) ∈ l → (k, b) ∈ l → a = b := by
  intro l
  induction l with
  | nil =>
    intro _ k a b ha _
    exact absurd ha (List.not_mem_nil _)
  | cons p rest ih =>
    intro hnodup k a b ha hb
    obtain ⟨k0, v0⟩ := p
    have hnd := List.nodup_cons.1 hnodup
    rcases List.mem_cons.1 ha with ha | ha <;> rcases List.mem_cons.1 hb with hb | hb
    · rw [Prod.mk.injEq] at ha hb
      rw [ha.2, hb.2]
    · rw [Prod.mk.injEq] at ha
      exfalso
      have hmem : k ∈ rest.map Prod.fst := List.mem_map_of_mem Prod.fst hb
      rw [ha.1] at hmem
      exact hnd.1 hmem
    · rw [Prod.mk.injEq] at hb
      exfalso
      have hmem : k ∈ rest.map Prod.fst := List.mem_map_of_mem Prod.fst ha
      rw [hb.1] at hmem
      exact hnd.1 hmem
    · exact ih hnd.2 ha hb

/-- Through the first enhanced pass, a record that is the first match of
some file item - or that the accumulator already binds at its id - stays
bound at its id, provided its id is below the id counter and no other
original record carries its id. -/
theorem enhPass1_retains (origValues : List File) (now : Nat) (f : File)
    (huniq : ∀ g ∈ origValues, g.id = f.id → g = f) :
    ∀ (items : List RemoteItem) (nc : List String) (acc : JsMap File) (fcid : Nat),
      f.id < fcid →
      (jsGet acc f.id = some f ∨
        ∃ i ∈ items, i.type = "file" ∧ origValues.find? (enhMatches i) = some f) →
      jsGet (enhPass1 origValues now items nc acc fcid).2.1 f.id = some f := by
  intro items
  induction items with
  | nil =>
    intro nc acc fcid _ h
    rcases h with h | ⟨i, hi, _⟩
    · simpa [enhPass1] using h
    · exact absurd hi (List.not_mem_nil i)
  | cons item rest ih =>
    intro nc acc fcid hlt h
    by_cases hty : item.type = "file"
    · simp only [enhPass1, if_pos hty]
      cases hfind : origValues.find? (enhMatches item) with
      | some g =>
        have hgmem : g ∈ origValues := List.mem_of_find?_eq_some hfind
        by_cases hgid : g.id = f.id
        · have hg : g = f := huniq g hgmem hgid
          subst hg
          apply ih _ _ fcid hlt
          exact Or.inl (jsGet_jsSet_self _ _ _)
        · apply ih _ _ fcid hlt
          rcases h with h | ⟨i, hi, hif, hfindi⟩
          · exact Or.inl (by
              rw [jsGet_jsSet_ne _ _ _ _ (fun hh => hgid hh.symm)]
              exact h)
          · rcases List.mem_cons.1 hi with hii | hii
            · exfalso
              rw [hii] at hfindi
              rw [hfindi] at hfind
              exact hgid (by rw [Option.some.injEq] at hfind; rw [hfind])
            · exact Or.inr ⟨i, hii, hif, hfindi⟩
      | none =>
        apply ih _ _ (fcid + 1) (Nat.lt_succ_of_lt hlt)
        rcases h with h | ⟨i, hi, hif, hfindi⟩
        · exact Or.inl (by
            rw [jsGet_jsSet_ne _ _ _ _ (Nat.ne_of_lt hlt)]
            exact h)
        · rcases List.mem_cons.1 hi with hii | hii
          · exfalso
            rw [hii] at hfindi
            rw [hfindi] at hfind
            exact Option.noConfusion hfind
          · exact Or.inr ⟨i, hii, hif, hfindi⟩
    · simp only [enhPass1, if_neg hty]
      apply ih _ _ fcid hlt
      rcases h with h | ⟨i, hi, hif, hfindi⟩
      · exact Or.inl h
      · rcases List.mem_cons.1 hi with hii | hii
        · exact absurd (hii ▸ hif) hty
        · exact Or.inr ⟨i, hii, hif, hfindi⟩

/-- Every path of a file item of the listing ends up in the recorded
remote-path list of the first enhanced pass. -/
theorem enhPass1_nc (origValues : List File) (now : Nat) (x : String) :
    ∀ (items : List RemoteItem) (nc : List String) (acc : JsMap File) (fcid : Nat),
      (x ∈ nc ∨ ∃ i ∈ items, i.type = "file" ∧ i.filename = x) →
      x ∈ (enhPass1 origValues now items nc acc fcid).1 := by
  intro items
  induction items with
  | nil =>
    intro nc acc fcid h
    rcases h with h | ⟨i, hi, _⟩
    · simpa [enhPass1] using h
    · exact absurd hi (List.not_mem_nil i)
  | cons item rest ih =>
    intro nc acc fcid h
    by_cases hty : item.type = "file"
    · simp only [enhPass1, if_pos hty]
      have hstep : x ∈ nc ++ [item.filename] ∨
          ∃ i ∈ rest, i.type = "file" ∧ i.filename = x := by
        rcases h with h | ⟨i, hi, hif, hfn⟩
        · exact Or.inl (List.mem_append_left _ h)
        · rcases List.mem_cons.1 hi with hii | hii
          · refine Or.inl (List.mem_append_right _ ?_)
            rw [← hfn, hii]
            exact List.mem_singleton.2 rfl
          · exact Or.inr ⟨i, hii, hif, hfn⟩
      cases hfind : origValues.find? (enhMatches item) with
      | some g => exact ih _ _ fcid hstep
      | none => exact ih _ _ (fcid + 1) hstep
    · simp only [enhPass1, if_neg hty]
      apply ih _ _ fcid
      rcases h with h | ⟨i, hi, hif, hfn⟩
      · exact Or.inl h
      · rcases List.mem_cons.1 hi with hii | hii
        · exact absurd (hii ▸ hif) hty
        · exact Or.inr ⟨i, hii, hif, hfn⟩

/-- The second enhanced pass keeps a live record bound at its id when its
path was listed and no map entry aliases its id with another record. -/
theorem enhPass2_get (nc : List String) (f : File) (hlive : f.isDeleted = false)
    (hin : nc.contains f.path = true) :
    ∀ (entries : List (Nat × File)) (acc : JsMap File),
      jsGet acc f.id = some f →
      (∀ p ∈ entries, p.1 = f.id → p.2 = f) →
      jsGet (enhPass2 nc entries acc) f.id = some f := by
  intro entries
  induction entries with
  | nil =>
    intro acc h _
    simpa [enhPass2] using h
  | cons p rest ih =>
    intro acc h hid
    obtain ⟨k, g⟩ := p
    have hidRest : ∀ q ∈ rest, q.1 = f.id → q.2 = f :=
      fun q hq => hid q (List.mem_cons_of_mem _ hq)
    by_cases hk : k = f.id
    · have hg : g = f := hid (k, g) (List.mem_cons_self _ _) hk
      have hc1 : (!g.isDeleted && !(nc.contains g.path)) = false := by
        rw [hg, hlive, hin]
        rfl
      have hg2 : g.isDeleted = false := by rw [hg]; exact hlive
      simp only [enhPass2]
      rw [hc1]
      simp only [Bool.false_eq_true, if_false]
      rw [hg2]
      simp only [Bool.false_eq_true, if_false]
      exact ih acc h hidRest
    · have hne : f.id ≠ k := fun hh => hk hh.symm
      simp only [enhPass2]
      split
      · exact ih _ (by rw [jsGet_jsSet_ne _ _ _ _ hne]; exact h) hidRest
      · split
        · exact ih _ (by rw [jsGet_jsSet_ne _ _ _ _ hne]; exact h) hidRest
        · exact ih _ h hidRest

/-- C6 amended: it is the enhanced getFiles reconciliation, not the
initialization scan, that retains existing entries: a non-deleted entry
that the pass matches for a listing file item bearing its remote path (the
first map record matching that item) stays bound at its identifier with
every field unchanged, provided the map binds each record at its own id,
keys are duplicate-free, and all keys are below the id counter.  The
initialization scan instead clears the catalog and renumbers from one. -/
theorem getFiles_retains_matched_entry (gw : Gateway) (now : Nat) (st : EnhState)
    (items : List RemoteItem) (item : RemoteItem) (f : File)
    (hlist : gw.listDir (st.baseFolder ++ "/cdns") = .ok items)
    (hitem : item ∈ items) (htype : item.type = "file")
    (hfind : (jsValues st.files).find? (enhMatches item) = some f)
    (hpath : item.filename = f.path)
    (hlive : f.isDeleted = false)
    (hids : ∀ p ∈ st.files, (p.2 : File).id = p.1)
    (hnodup : (st.files.map Prod.fst).Nodup)
    (hfresh : ∀ p ∈ st.files, p.1 < st.fileCurrentId) :
    jsGet (getFilesEnhanced gw now st).2.files f.id = some f := by
  have hfmem : f ∈ jsValues st.files := List.mem_of_find?_eq_some hfind
  obtain ⟨pf, hkf, hpf⟩ := List.mem_map.1 hfmem
  obtain ⟨kf, f'⟩ := pf
  have hff : f' = f := hpf
  rw [hff] at hkf
  have hkid : f.id = kf := hids (kf, f) hkf
  have hfid_mem : (f.id, f) ∈ st.files := by rw [hkid]; exact hkf
  have hentries : ∀ p ∈ st.files, p.1 = f.id → p.2 = f := by
    intro p hp hpk
    obtain ⟨k1, g1⟩ := p
    simp only at hpk
    subst hpk
    exact nodupKeys_eq st.files hnodup hp hfid_mem
  have huniq : ∀ g ∈ jsValues st.files, g.id = f.id → g = f := by
    intro g hg hgid
    obtain ⟨pg, hkg, hpg⟩ := List.mem_map.1 hg
    obtain ⟨kg, g'⟩ := pg
    have hgg : g' = g := hpg
    rw [hgg] at hkg
    have hkgid : kg = g.id := (hids (kg, g) hkg).symm
    rw [hkgid, hgid] at hkg
    exact nodupKeys_eq st.files hnodup hkg hfid_mem
  have hlt : f.id < st.fileCurrentId := by
    rw [hkid]
    exact hfresh (kf, f) hkf
  have h1 : jsGet (enhPass1 (jsValues st.files) now items [] [] st.fileCurrentId).2.1 f.id = some f :=
    enhPass1_retains (jsValues st.files) now f huniq items [] [] st.fileCurrentId hlt
      (Or.inr ⟨item, hitem, htype, hfind⟩)
  have h2 : f.path ∈ (enhPass1 (jsValues st.files) now items [] [] st.fileCurrentId).1 :=
    enhPass1_nc (jsValues st.files) now f.path items [] [] st.fileCurrentId
      (Or.inr ⟨item, hitem, htype, hpath⟩)
  have h2' : ((enhPass1 (jsValues st.files) now items [] [] st.fileCurrentId).1).contains f.path = true := by
    exact List.elem_eq_true_of_mem h2
  have h3 := enhPass2_get (enhPass1 (jsValues st.files) now items [] [] st.fileCurrentId).1
    f hlive h2' st.files (enhPass1 (jsValues st.files) now items [] [] st.fileCurrentId).2.1
    h1 hentries
  have hfe : (getFilesEnhanced gw now st).2.files =
      enhPass2 (enhPass1 (jsValues st.files) now items [] [] st.fileCurrentId).1 st.files
        (enhPass1 (jsValues st.files) now items [] [] st.fileCurrentId).2.1 := by
    unfold getFilesEnhanced
    rw [hlist]
  rw [hfe]
  exact h3

/-- An enhanced-storage state holding one live entry for a.png. -/
def enhDemoState : EnhState :=
  { files :=
      [(1, { id := 1, filename := "a.png", originalFilename := "a.png",
             path := "LyreTeams/cdns/a.png", size := 3, mimeType := "image/png",
             uploadedAt := 10, isDeleted := false, uploadedBy := "" })]
    fileCurrentId := 2
    baseFolder := "LyreTeams" }

/-- The matching listing item for that entry. -/
def enhDemoItem : RemoteItem :=
  { basename := "a.png", filename := "LyreTeams/cdns/a.png",
    type := "file", size := 3, mime := "", lastmod := 0 }

/-- A gateway whose listing holds exactly that item. -/
def enhDemoGw : Gateway :=
  { existsFile := fun _ => .ok true
    readFile := fun _ => .error ()
    putFile := fun _ => .ok ()
    copyFile := fun _ _ => .ok ()
    deleteRemote := fun _ => .ok ()
    listDir := fun _ => .ok [enhDemoItem]
    mkdir := fun _ => .ok () }

/-- C6 amended, witness: the enhanced reconciliation of the one-entry
catalog against its own listing keeps the entry bound at id one,
unchanged. -/
theorem getFiles_retains_matched_entry_witness :
    enhDemoGw.listDir (enhDemoState.baseFolder ++ "/cdns") = .ok [enhDemoItem] ∧
    jsGet (getFilesEnhanced enhDemoGw 99 enhDemoState).2.files 1 =
      some { id := 1, filename := "a.png", originalFilename := "a.png",
             path := "LyreTeams/cdns/a.png", size := 3, mimeType := "image/png",
             uploadedAt := 10, isDeleted := false, uploadedBy := "" } := by
  refine ⟨by rfl, ?_⟩
  exact getFiles_retains_matched_entry enhDemoGw 99 enhDemoState [enhDemoItem] enhDemoItem
    { id := 1, filename := "a.png", originalFilename := "a.png",
      path := "LyreTeams/cdns/a.png", size := 3, mimeType := "image/png",
      uploadedAt := 10, isDeleted := false, uploadedBy := "" }
    (by rfl) (by decide) (by rfl) (by rfl) (by rfl) (by rfl)
    (by decide) (by decide) (by decide)

/-! ## C1 -/

/-- A user record as every record looks after the load-time
normalization: all required fields present, the approval flag consistent
with the status, and the primordial administrator name implying the admin
role. -/
def GoodUser (u : User) : Prop :=
  u.id ≠ 0 ∧ u.username ≠ "" ∧ u.password ≠ "" ∧ u.role ≠ "" ∧ u.status ≠ "" ∧
  u.isApproved = decide (u.status = "approved") ∧
  (u.username = adminUsername → u.role = "admin")

/-- The number of map records carrying the primordial login-name. -/
def adminNamedCount (m : JsMap User) : Nat :=
  ((jsValues m).filter (fun u => u.username == adminUsername)).length

/-- The number of parsed records carrying the primordial login-name. -/
def rawAdminCount (l : List RawUser) : Nat :=
  (l.filter (fun u => u.username == adminUsername)).length

theorem normalizeLoadedUser_good (u : RawUser) (h1 : u.id ≠ 0) (h2 : u.username ≠ "")
    (h3 : u.password ≠ "") : GoodUser (normalizeLoadedUser u) := by
  have hrole : (if u.role = "" then "user" else u.role) ≠ "" := by
    by_cases hr : u.role = "" <;> simp [hr]
  have hstat : (if u.status = "" then "pending" else u.status) ≠ "" := by
    by_cases hs : u.status = "" <;> simp [hs]
  unfold normalizeLoadedUser
  refine ⟨h1, h2, h3, ?_, hstat, rfl, ?_⟩
  · by_cases hc : u.username = adminUsername ∧ (if u.role = "" then "user" else u.role) ≠ "admin"
    · simp only [if_pos hc]
      simp
    · simp only [if_neg hc]
      exact hrole
  · intro hn
    by_cases hc : u.username = adminUsername ∧ (if u.role = "" then "user" else u.role) ≠ "admin"
    · simp only [if_pos hc]
    · simp only [if_neg hc]
      rcases Decidable.em ((if u.role = "" then "user" else u.role) = "admin") with he | he
      · exact he
      · exact absurd ⟨hn, he⟩ hc

/-- An entry of a map after a set is the set pair or an original entry. -/
theorem mem_jsSet {α : Type} (m : JsMap α) (k : Nat) (v : α) (p : Nat × α)
    (hp : p ∈ jsSet m k v) : p = (k, v) ∨ p ∈ m := by
  induction m with
  | nil => simpa [jsSet] using hp
  | cons q rest ih =>
    obtain ⟨k0, v0⟩ := q
    by_cases h : k0 = k
    · simp only [jsSet, h, beq_self_eq_true, if_true, List.mem_cons] at hp
      rcases hp with hp | hp
      · exact Or.inl hp
      · exact Or.inr (List.mem_cons_of_mem _ hp)
    · have hb : (k0 == k) = false := by simpa using h
      simp only [jsSet, hb, Bool.false_eq_true, if_false, List.mem_cons] at hp
      rcases hp with hp | hp
      · exact Or.inr (by rw [hp]; exact List.mem_cons_self _ _)
      · rcases ih hp with hh | hh
        · exact Or.inl hh
        · exact Or.inr (List.mem_cons_of_mem _ hh)

/-- A set adds at most one record with the primordial login-name. -/
theorem adminNamedCount_jsSet_le (m : JsMap User) (k : Nat) (v : User) :
    adminNamedCount (jsSet m k v) ≤ adminNamedCount m +
      (if v.username == adminUsername then 1 else 0) := by
  induction m with
  | nil =>
    simp only [jsSet, adminNamedCount, jsValues, List.map_cons, List.map_nil,
      List.filter_cons, List.filter_nil]
    split <;> simp
  | cons q rest ih =>
    obtain ⟨k0, v0⟩ := q
    by_cases h : k0 = k
    · simp only [jsSet, h, beq_self_eq_true, if_true, adminNamedCount, jsValues,
        List.map_cons, List.filter_cons] at ih ⊢
      split <;> split <;> simp <;> omega
    · have hb : (k0 == k) = false := by simpa using h
      simp only [jsSet, hb, Bool.false_eq_true, if_false, adminNamedCount, jsValues,
        List.map_cons, List.filter_cons] at ih ⊢
      have hite : (if (v.username == adminUsername) = true then 1 else 0) =
          (if v.username = adminUsername then 1 else 0) := by
        by_cases hv : v.username = adminUsername <;> simp [hv]
      rw [hite] at ih
      split <;> simp <;> omega

/-- Loop invariants of the load pass: every stored record is normalized,
every key is bounded by the running maximal id, and the number of
primordial-named records grows by at most the number of primordial-named
parsed records. -/
theorem loadUsersLoop_spec :
    ∀ (l : List RawUser) (m : JsMap User) (maxId : Nat),
      (∀ v ∈ jsValues m, GoodUser v) →
      (∀ p ∈ m, p.1 ≤ maxId) →
      (∀ v ∈ jsValues (loadUsersLoop l m maxId).1, GoodUser v) ∧
      (∀ p ∈ (loadUsersLoop l m maxId).1, p.1 ≤ (loadUsersLoop l m maxId).2) ∧
      adminNamedCount (loadUsersLoop l m maxId).1 ≤ adminNamedCount m + rawAdminCount l := by
  intro l
  induction l with
  | nil =>
    intro m maxId hgood hkeys
    refine ⟨hgood, hkeys, ?_⟩
    simp [loadUsersLoop, rawAdminCount]
  | cons u rest ih =>
    intro m maxId hgood hkeys
    have hcount_cons : rawAdminCount rest ≤ rawAdminCount (u :: rest) ∧
        rawAdminCount (u :: rest) ≤ rawAdminCount rest +
          (if u.username == adminUsername then 1 else 0) := by
      unfold rawAdminCount
      rw [List.filter_cons]
      split <;> simp
    by_cases hv : u.id = 0 ∨ u.username = "" ∨ u.password = ""
    · simp only [loadUsersLoop, if_pos hv]
      obtain ⟨h1, h2, h3⟩ := ih m maxId hgood hkeys
      exact ⟨h1, h2, le_trans h3 (Nat.add_le_add_left hcount_cons.1 _)⟩
    · simp only [loadUsersLoop, if_neg hv]
      push_neg at hv
      have hnu : GoodUser (normalizeLoadedUser u) :=
        normalizeLoadedUser_good u hv.1 hv.2.1 hv.2.2
      have hgood' : ∀ v ∈ jsValues (jsSet m u.id (normalizeLoadedUser u)), GoodUser v := by
        intro v hvm
        rcases jsValues_jsSet_mem _ _ _ _ hvm with hvm | hvm
        · rw [hvm]; exact hnu
        · exact hgood v hvm
      have hkeys' : ∀ p ∈ jsSet m u.id (normalizeLoadedUser u), p.1 ≤ max maxId u.id := by
        intro p hp
        rcases mem_jsSet _ _ _ _ hp with hp | hp
        · rw [hp]; exact le_max_right _ _
        · exact le_trans (hkeys p hp) (le_max_left _ _)
      obtain ⟨h1, h2, h3⟩ := ih (jsSet m u.id (normalizeLoadedUser u)) (max maxId u.id)
        hgood' hkeys'
      refine ⟨h1, h2, ?_⟩
      have hset := adminNamedCount_jsSet_le m u.id (normalizeLoadedUser u)
      have hsame : ((normalizeLoadedUser u).username == adminUsername) =
          (u.username == adminUsername) := rfl
      rw [hsame] at hset
      calc adminNamedCount (loadUsersLoop rest (jsSet m u.id (normalizeLoadedUser u)) (max maxId u.id)).1
            ≤ adminNamedCount (jsSet m u.id (normalizeLoadedUser u)) + rawAdminCount rest := h3
        _ ≤ (adminNamedCount m + (if u.username == adminUsername then 1 else 0)) + rawAdminCount rest := Nat.add_le_add_right hset _
        _ = adminNamedCount m + (rawAdminCount rest + (if u.username == adminUsername then 1 else 0)) := by omega
        _ ≤ adminNamedCount m + rawAdminCount (u :: rest) := by
            have := hcount_cons.2
            have h4 : rawAdminCount rest + (if u.username == adminUsername then 1 else 0) = rawAdminCount (u :: rest) := by
              unfold rawAdminCount
              rw [List.filter_cons]
              split <;> simp <;> omega
            omega

/-- The persistence-time validation leaves a normalized record alone. -/
theorem normalizeUserForSave_id (cid : Nat) (u : User) (h : GoodUser u) :
    normalizeUserForSave cid u = (u, cid) := by
  obtain ⟨h1, h2, h3, h4, h5, h6, _⟩ := h
  have hv : ¬ (u.id = 0 ∨ u.username = "" ∨ u.password = "") := by
    intro hc
    rcases hc with hc | hc | hc
    exacts [h1 hc, h2 hc, h3 hc]
  unfold normalizeUserForSave
  simp only [if_neg hv, if_neg h4, if_neg h5]
  obtain ⟨i, un, pw, r, s, ap⟩ := u
  simp only at h6
  simp [h6]

/-- The persistence-time validation leaves a fully normalized map alone. -/
theorem saveNormalizePass_id :
    ∀ (m : JsMap User) (cid : Nat), (∀ v ∈ jsValues m, GoodUser v) →
      saveNormalizePass m cid = (m, cid) := by
  intro m
  induction m with
  | nil => intro cid _; rfl
  | cons p rest ih =>
    intro cid hgood
    obtain ⟨k, u⟩ := p
    have hu : GoodUser u := hgood u (by simp [jsValues])
    have hrest : ∀ v ∈ jsValues rest, GoodUser v :=
      fun v hv => hgood v (by simp [jsValues] at hv ⊢; exact Or.inr hv)
    simp only [saveNormalizePass, normalizeUserForSave_id cid u hu, ih cid hrest]

/-- Updating the first match is the identity when the update fixes every
matching value. -/
theorem updateFirst_id {α : Type} :
    ∀ (m : JsMap α) (p : α → Bool) (f : α → α),
      (∀ v ∈ jsValues m, p v = true → f v = v) → updateFirst m p f = m := by
  intro m p f
  induction m with
  | nil => intro _; rfl
  | cons q rest ih =>
    intro h
    obtain ⟨k, v⟩ := q
    by_cases hp : p v = true
    · have hv : f v = v := h v (by simp [jsValues]) hp
      simp only [updateFirst, hp, if_true, hv]
    · have hpf : p v = false := by simpa using hp
      simp only [updateFirst, hpf, Bool.false_eq_true, if_false, List.cons.injEq, true_and]
      exact ih (fun v hv hpv => h v (by simp [jsValues] at hv ⊢; exact Or.inr hv) hpv)

/-- The in-memory repairs of saveUsersToNextCloud do nothing on a fully
normalized store that already holds the primordial administrator. -/
theorem saveUsersLocalEffect_id (st : UserState)
    (hgood : ∀ v ∈ jsValues st.users, GoodUser v)
    (hadmin : ∃ v ∈ jsValues st.users, v.username = adminUsername) :
    saveUsersLocalEffect st = st := by
  obtain ⟨a, ham, haname⟩ := hadmin
  have hfind : ∃ b, (jsValues st.users).find? (fun u => u.username == adminUsername) = some b := by
    have : ((jsValues st.users).find? (fun u => u.username == adminUsername)).isSome := by
      rw [List.find?_isSome]
      exact ⟨a, ham, by simpa using haname⟩
    exact Option.isSome_iff_exists.1 this
  obtain ⟨b, hb⟩ := hfind
  have hupd : updateFirst st.users (fun u => u.username == adminUsername)
      (fun u => if u.role = "admin" then u else { u with role := "admin" }) = st.users := by
    apply updateFirst_id
    intro v hv hpv
    have hvn : v.username = adminUsername := by simpa using hpv
    have hrole : v.role = "admin" := (hgood v hv).2.2.2.2.2.2 hvn
    simp [hrole]
  unfold saveUsersLocalEffect
  rw [hb]
  simp only [hupd, saveNormalizePass_id st.users st.userCurrentId hgood]

/-- The consistency verification does nothing on a fully normalized store
that already holds the primordial administrator with the admin role. -/
theorem verifyStorageConsistency_id (st : UserState)
    (hgood : ∀ v ∈ jsValues st.users, GoodUser v)
    (hadmin : ∃ v ∈ jsValues st.users, v.username = adminUsername) :
    verifyStorageConsistency st = st := by
  obtain ⟨a, ham, haname⟩ := hadmin
  have hfind : ∃ b, (jsValues st.users).find? (fun u => u.username == adminUsername) = some b := by
    have hs : ((jsValues st.users).find? (fun u => u.username == adminUsername)).isSome := by
      rw [List.find?_isSome]
      exact ⟨a, ham, by simpa using haname⟩
    exact Option.isSome_iff_exists.1 hs
  obtain ⟨b, hb⟩ := hfind
  have hbmem : b ∈ jsValues st.users := List.mem_of_find?_eq_some hb
  have hbname : b.username = adminUsername := by simpa using List.find?_some hb
  have hbrole : b.role = "admin" := (hgood b hbmem).2.2.2.2.2.2 hbname
  have hinv : ((jsValues st.users).filter
      (fun u => u.id = 0 ∨ u.username = "" ∨ u.password = "" ∨ u.role = "" ∨ u.status = "")) = [] := by
    rw [List.filter_eq_nil]
    intro v hv
    obtain ⟨h1, h2, h3, h4, h5, _, _⟩ := hgood v hv
    simp [h1, h2, h3, h4, h5]
  unfold verifyStorageConsistency
  rw [hb]
  simp only [hbrole, ne_eq, not_true_eq_false, if_false, hinv, List.isEmpty_nil, if_true]

/-- The synthesized default administrator is normalized. -/
theorem defaultAdmin_good (id : Nat) (h : id ≠ 0) : GoodUser (defaultAdmin id) := by
  refine ⟨h, ?_, ?_, ?_, ?_, ?_, ?_⟩ <;> simp [defaultAdmin, adminUsername]

/-- After the load pass over a document holding at most one record with
the primordial login-name, every stored record is normalized and exactly
one record carries that name. -/
theorem loadUsersFromList_spec (baseFolder : String) (input : List RawUser)
    (h : rawAdminCount input ≤ 1) :
    (∀ v ∈ jsValues (loadUsersFromList baseFolder input).users, GoodUser v) ∧
    adminNamedCount (loadUsersFromList baseFolder input).users = 1 := by
  obtain ⟨hgood, hkeys, hcount⟩ := loadUsersLoop_spec input [] 0
    (by intro v hv; exact absurd hv (List.not_mem_nil v))
    (by intro p hp; exact absurd hp (List.not_mem_nil p))
  have hcnil : adminNamedCount ([] : JsMap User) = 0 := rfl
  rcases hpair : loadUsersLoop input [] 0 with ⟨m, maxId⟩
  rw [hpair] at hgood hkeys hcount
  simp only at hgood hkeys hcount
  have hm1 : adminNamedCount m ≤ 1 := by omega
  unfold loadUsersFromList
  rw [hpair]
  simp only
  cases hfind : (jsValues m).find? (fun u => u.username == adminUsername) with
  | none =>
    have hnone : ∀ v ∈ jsValues m, ¬ ((v.username == adminUsername) = true) :=
      fun v hv => by
        have := List.find?_eq_none.1 hfind v hv
        simpa using this
    have hzero : adminNamedCount m = 0 := by
      unfold adminNamedCount
      rw [List.filter_eq_nil.2 hnone]
      rfl
    have hfresh : ∀ p ∈ m, p.1 ≠ maxId + 1 := by
      intro p hp
      have := hkeys p hp
      omega
    have hset : jsSet m (maxId + 1) (defaultAdmin (maxId + 1)) =
        m ++ [(maxId + 1, defaultAdmin (maxId + 1))] := jsSet_fresh m _ _ hfresh
    have hvals : jsValues (jsSet m (maxId + 1) (defaultAdmin (maxId + 1))) =
        jsValues m ++ [defaultAdmin (maxId + 1)] := by
      rw [hset]
      simp [jsValues]
    have hgood0 : ∀ v ∈ jsValues (jsSet m (maxId + 1) (defaultAdmin (maxId + 1))), GoodUser v := by
      intro v hv
      rw [hvals] at hv
      rcases List.mem_append.1 hv with hv | hv
      · exact hgood v hv
      · rw [List.mem_singleton.1 hv]
        exact defaultAdmin_good _ (Nat.succ_ne_zero maxId)
    have hadmin0 : ∃ v ∈ jsValues (jsSet m (maxId + 1) (defaultAdmin (maxId + 1))),
        v.username = adminUsername := by
      refine ⟨defaultAdmin (maxId + 1), ?_, rfl⟩
      rw [hvals]
      exact List.mem_append_right _ (List.mem_singleton.2 rfl)
    have hcount0 : adminNamedCount (jsSet m (maxId + 1) (defaultAdmin (maxId + 1))) = 1 := by
      unfold adminNamedCount
      rw [hvals, List.filter_append]
      unfold adminNamedCount at hzero
      rw [List.filter_eq_nil.2 hnone]
      simp [defaultAdmin, adminUsername]
    rw [saveUsersLocalEffect_id _ hgood0 hadmin0]
    exact ⟨hgood0, hcount0⟩
  | some a =>
    have hamem : a ∈ jsValues m := List.mem_of_find?_eq_some hfind
    have haname : a.username = adminUsername := by simpa using List.find?_some hfind
    have harole : a.role = "admin" := (hgood a hamem).2.2.2.2.2.2 haname
    simp only [harole, ne_eq, not_true_eq_false, if_false]
    have hone : 1 ≤ adminNamedCount m := by
      unfold adminNamedCount
      have hmemf : a ∈ (jsValues m).filter (fun u => u.username == adminUsername) :=
        List.mem_filter.2 ⟨hamem, by simpa using haname⟩
      have := List.length_pos.2 (List.ne_nil_of_mem hmemf)
      omega
    exact ⟨hgood, by omega⟩

/-- C1 amended: for every parsed account list holding at most one record
with the primordial login-name (as in the four enumerated shapes), after
loadUsersFromNextCloud followed by verifyStorageConsistency exactly one
account carries the login-name rdxhere.exe and that account has role
admin.  A missing or invalid primordial account is synthesized with
approval-status approved, but an existing primordial account with a wrong
approval-status keeps that status: only the role is coerced, which is what
the counterexample demonstrates. -/
theorem loadVerify_admin_invariant (baseFolder : String) (input : List RawUser)
    (h : rawAdminCount input ≤ 1) :
    adminNamedCount (verifyStorageConsistency (loadUsersFromList baseFolder input)).users = 1 ∧
    ∀ u ∈ jsValues (verifyStorageConsistency (loadUsersFromList baseFolder input)).users,
      u.username = adminUsername → u.role = "admin" := by
  obtain ⟨hgood, hcount⟩ := loadUsersFromList_spec baseFolder input h
  have hadmin : ∃ v ∈ jsValues (loadUsersFromList baseFolder input).users,
      v.username = adminUsername := by
    have hne : (jsValues (loadUsersFromList baseFolder input).users).filter
        (fun u => u.username == adminUsername) ≠ [] := by
      intro hnil
      unfold adminNamedCount at hcount
      rw [hnil] at hcount
      simp at hcount
    obtain ⟨v, hv⟩ := List.exists_mem_of_ne_nil _ hne
    have hv2 := List.mem_filter.1 hv
    exact ⟨v, hv2.1, by simpa using hv2.2⟩
  rw [verifyStorageConsistency_id _ hgood hadmin]
  exact ⟨hcount, fun u hu hn => (hgood u hu).2.2.2.2.2.2 hn⟩

/-- C1 amended, witness: the account list carrying the rejected-status
primordial administrator (one primordial-named record). -/
theorem loadVerify_admin_invariant_witness :
    rawAdminCount rejectedAdminInput ≤ 1 ∧
    (adminNamedCount (verifyStorageConsistency
        (loadUsersFromList "LyreTeams" rejectedAdminInput)).users = 1 ∧
      ∀ u ∈ jsValues (verifyStorageConsistency
          (loadUsersFromList "LyreTeams" rejectedAdminInput)).users,
        u.username = adminUsername → u.role = "admin") := by
  refine ⟨by decide, ?_⟩
  exact loadVerify_admin_invariant "LyreTeams" rejectedAdminInput (by decide)
